import Mathlib

/-!
Keyword intent classification (server.js, public/script.js, clusterer.js)

A shallow embedding of the keyword classification pipeline of `src/server.js`
(`detectIntent`, the `/api/process-keywords` handler and the `/api/process-csv`
handler), of the request that `analyzeKeywords` of `src/public/script.js` builds for
the first handler, and of `clusterKeywords` of `src/clusterer.js`.

Modelling conventions.

* A JavaScript string is a Lean `String` (a sequence of Unicode scalar values);
  the string operations used by the source (`trim`, `includes`, `split`) are
  defined on the underlying `List Char`.  Strings with unpaired surrogates are
  outside the model.
* `String.prototype.toLowerCase` is a built-in whose Unicode case table is not part
  of the repository.  Functions that call it take it as the parameter
  `toLowerCase : String → String`, so the theorems about them hold for every case
  mapping.  A concrete table (`jsToLowerCase`, `jsToUpperCase`) is given further
  down for the places where a concrete evaluation is needed.
* A JavaScript number is a `JSNumber`: a finite binary64 double given by its exact
  rational value, an infinity or `NaN`.  Every arithmetic result is rounded to the
  nearest double (`roundDouble`), as are the values that `Number` and `parseInt` read
  from a text; where ECMAScript lets an implementation approximate a decimal text of
  more than 20 significant digits, the model rounds correctly.
-/

namespace KeywordTool

/-! ## String primitives -/

/-- The code points removed by `String.prototype.trim`: ECMAScript `WhiteSpace`
(TAB, VT, FF, ZWNBSP and the Unicode space separators) and `LineTerminator`
(LF, CR, LS, PS). -/
def isWhiteSpace (c : Char) : Bool :=
  let n := c.toNat
  n == 0x09 || n == 0x0A || n == 0x0B || n == 0x0C || n == 0x0D || n == 0x20 ||
  n == 0xA0 || n == 0x1680 || (0x2000 ≤ n && n ≤ 0x200A) || n == 0x2028 ||
  n == 0x2029 || n == 0x202F || n == 0x205F || n == 0x3000 || n == 0xFEFF

/-- Leading white space removed. -/
def trimStartChars (s : List Char) : List Char :=
  s.dropWhile isWhiteSpace

/-- Trailing white space removed. -/
def trimEndChars (s : List Char) : List Char :=
  (s.reverse.dropWhile isWhiteSpace).reverse

/-- The character-level body of `String.prototype.trim`. -/
def trimChars (s : List Char) : List Char :=
  trimEndChars (trimStartChars s)

/-- The method `s.trim()`. -/
def trim (s : String) : String :=
  ⟨trimChars s.data⟩

/-- Character-level body of `includes`: does `needle` occur in `s` as a contiguous
run?  The empty needle occurs in every string. -/
def includesChars : List Char → List Char → Bool
  | [], needle => needle.isPrefixOf []
  | c :: cs, needle => needle.isPrefixOf (c :: cs) || includesChars cs needle

/-- The method `s.includes(needle)`. -/
def includes (s needle : String) : Bool :=
  includesChars s.data needle.data

/-! ## Intent detection -/

/-- The function `detectIntent(keyword)` of `server.js`, without its `console.log` calls.
The result is the label string the source returns. -/
def detectIntent (toLowerCase : String → String) (keyword : String) : String :=
  let kw := trim (toLowerCase keyword)
  if includes kw "best" then
    "Commercial"
  else if includes kw "buy" || includes kw "price" || includes kw "purchase" ||
      includes kw "order" || includes kw "shop" || includes kw "cost" then
    "Transactional"
  else if includes kw "login" || includes kw "website" || includes kw "site" ||
      includes kw "official" || includes kw "app" || includes kw "web" then
    "Navigational"
  else
    "Informational"

/-! ## A concrete case table -/

/-- The lower-case mapping of one code point.  The table lists Basic Latin and the two
code points outside it whose lower-case mapping contains a Basic Latin letter
(U+0130 and the Kelvin sign U+212A).  Any other code point is left in place: this is
exact on Basic Latin text, and elsewhere it puts one code point outside Basic Latin
where the built-in puts others, which changes no test that `detectIntent` makes, its
needles being Basic Latin words. -/
def lowerCaseOf (c : Char) : List Char :=
  if 0x41 ≤ c.toNat ∧ c.toNat ≤ 0x5A then [Char.ofNat (c.toNat + 32)]
  else if c.toNat = 0x130 then [Char.ofNat 0x69, Char.ofNat 0x307]
  else if c.toNat = 0x212A then [Char.ofNat 0x6B]
  else [c]

/-- The upper-case mapping of one code point.  The table lists Basic Latin and the
code points outside it whose upper-case mapping contains a Basic Latin letter (sharp s,
dotless i, long s, the small letters with a combining mark that have no precomposed
capital, and the Latin ligatures U+FB00 to U+FB06).  Any other code point is left in
place, as in `lowerCaseOf`. -/
def upperCaseOf (c : Char) : List Char :=
  let n := c.toNat
  if 0x61 ≤ n ∧ n ≤ 0x7A then [Char.ofNat (n - 32)]
  else if n = 0xDF then [Char.ofNat 0x53, Char.ofNat 0x53]
  else if n = 0x131 then [Char.ofNat 0x49]
  else if n = 0x149 then [Char.ofNat 0x2BC, Char.ofNat 0x4E]
  else if n = 0x17F then [Char.ofNat 0x53]
  else if n = 0x1F0 then [Char.ofNat 0x4A, Char.ofNat 0x30C]
  else if n = 0x1E96 then [Char.ofNat 0x48, Char.ofNat 0x331]
  else if n = 0x1E97 then [Char.ofNat 0x54, Char.ofNat 0x308]
  else if n = 0x1E98 then [Char.ofNat 0x57, Char.ofNat 0x30A]
  else if n = 0x1E99 then [Char.ofNat 0x59, Char.ofNat 0x30A]
  else if n = 0x1E9A then [Char.ofNat 0x41, Char.ofNat 0x2BE]
  else if n = 0xFB00 then [Char.ofNat 0x46, Char.ofNat 0x46]
  else if n = 0xFB01 then [Char.ofNat 0x46, Char.ofNat 0x49]
  else if n = 0xFB02 then [Char.ofNat 0x46, Char.ofNat 0x4C]
  else if n = 0xFB03 then [Char.ofNat 0x46, Char.ofNat 0x46, Char.ofNat 0x49]
  else if n = 0xFB04 then [Char.ofNat 0x46, Char.ofNat 0x46, Char.ofNat 0x4C]
  else if n = 0xFB05 then [Char.ofNat 0x53, Char.ofNat 0x54]
  else if n = 0xFB06 then [Char.ofNat 0x53, Char.ofNat 0x54]
  else [c]

/-- The method `s.toLowerCase()` on the table `lowerCaseOf`. -/
def jsToLowerCase (s : String) : String :=
  ⟨s.data.flatMap lowerCaseOf⟩

/-- The method `s.toUpperCase()` on the table `upperCaseOf`. -/
def jsToUpperCase (s : String) : String :=
  ⟨s.data.flatMap upperCaseOf⟩

/-! ## Numbers -/

/-- A JavaScript number: a finite binary64 double given by its exact value, an infinity,
or `NaN`.  The two zeros are one value, `finite 0`: the source adds numbers, tests them
for truthiness and sends them as JSON, and none of these tells the zeros apart. -/
inductive JSNumber where
  | finite (value : ℚ)
  | infinity (negative : Bool)
  | nan
  deriving DecidableEq, Repr

/-- A scalar JSON value, the shape of an element of the `volumes` array of a request
body.  Arrays and objects as elements are outside the model. -/
inductive JsonValue where
  | number (x : JSNumber)
  | string (s : String)
  | bool (b : Bool)
  | null
  deriving DecidableEq, Repr

/-- The integer nearest to `a / b`, for `b > 0`; a tie goes to the even one. -/
def roundHalfEven (a b : Nat) : Nat :=
  let d := a / b
  let r := a % b
  if 2 * r < b then d
  else if b < 2 * r then d + 1
  else if d % 2 = 0 then d
  else d + 1

/-- The position of the highest set bit of `n`, by halving at most `fuel` times: with
`fuel = n` it is the integer `k` with `2 ^ k ≤ n < 2 ^ (k + 1)`, for `n > 0`. -/
def bitLog : Nat → Nat → Nat
  | 0, _ => 0
  | fuel + 1, n => if n < 2 then 0 else bitLog fuel (n / 2) + 1

/-- The integer `e` with `2 ^ e ≤ p / q < 2 ^ (e + 1)`, for positive `p` and `q`: the
difference of the positions of the highest bits, or one less. -/
def floorLog2 (p q : Nat) : Int :=
  let e0 : Int := (bitLog p p : Int) - (bitLog q q : Int)
  if 0 ≤ e0 then
    if q * 2 ^ e0.toNat ≤ p then e0 else e0 - 1
  else
    if q ≤ p * 2 ^ (-e0).toNat then e0 else e0 - 1

/-- The Number value of a real `x`: the binary64 double nearest to `x`, a tie going to
the double with the even significand, and an infinity from `2 ^ 1024 - 2 ^ 970` on.
With `2 ^ e ≤ |x| < 2 ^ (e + 1)` the doubles around `x` are the multiples of
`2 ^ (e - 52)`, and of `2 ^ (-1074)` below `2 ^ (-1022)`. -/
def roundDouble (x : ℚ) : JSNumber :=
  let p := x.num.natAbs
  let q := x.den
  if p = 0 then .finite 0
  else
    let e := max (floorLog2 p q) (-1022)
    let u := e - 52
    let n :=
      if 0 ≤ u then roundHalfEven p (q * 2 ^ u.toNat)
      else roundHalfEven (p * 2 ^ (-u).toNat) q
    if 0 ≤ u ∧ 2 ^ 1024 ≤ n * 2 ^ u.toNat then .infinity (decide (x.num < 0))
    else
      let m : ℚ := if 0 ≤ u then mkRat (n * 2 ^ u.toNat : Nat) 1 else mkRat n (2 ^ (-u).toNat)
      .finite (if x.num < 0 then -m else m)

/-- The negation `-x`. -/
def jsNegate : JSNumber → JSNumber
  | .finite a => .finite (-a)
  | .infinity negative => .infinity (!negative)
  | .nan => .nan

/-- The sum `x + y` of two numbers: the exact sum rounded to a double. -/
def jsAdd : JSNumber → JSNumber → JSNumber
  | .finite a, .finite b => roundDouble (a + b)
  | .finite _, .infinity negative => .infinity negative
  | .infinity negative, .finite _ => .infinity negative
  | .infinity negative, .infinity other =>
    if negative = other then .infinity negative else .nan
  | .nan, _ => .nan
  | _, .nan => .nan

/-- The expression `x || 0` on a number: `NaN` and zero are falsy and give 0. -/
def orZero : JSNumber → JSNumber
  | .nan => .finite 0
  | x => x

/-- A decimal digit. -/
def isDecimalDigit (c : Char) : Bool :=
  0x30 ≤ c.toNat && c.toNat ≤ 0x39

/-- The value of a character as a digit of a radix up to 36. -/
def digitValue (c : Char) : Option Nat :=
  let n := c.toNat
  if 0x30 ≤ n ∧ n ≤ 0x39 then some (n - 0x30)
  else if 0x61 ≤ n ∧ n ≤ 0x7A then some (n - 0x61 + 10)
  else if 0x41 ≤ n ∧ n ≤ 0x5A then some (n - 0x41 + 10)
  else none

/-- Is the character a digit of the radix? -/
def isRadixDigit (radix : Nat) (c : Char) : Bool :=
  match digitValue c with
  | some d => decide (d < radix)
  | none => false

/-- A non-empty run of digits of the radix, and nothing else. -/
def isDigitRun (radix : Nat) (s : List Char) : Bool :=
  !s.isEmpty && s.all (isRadixDigit radix)

/-- The production `SignedInteger`: an optional sign and a non-empty run of decimal digits. -/
def isSignedInteger (s : List Char) : Bool :=
  match s with
  | [] => false
  | c :: cs => if c = '+' ∨ c = '-' then isDigitRun 10 cs else isDigitRun 10 (c :: cs)

/-- An optional `ExponentPart`: nothing, or `e`/`E` and a `SignedInteger`. -/
def isExponentPartOpt (s : List Char) : Bool :=
  match s with
  | [] => true
  | c :: cs => (c = 'e' ∨ c = 'E') && isSignedInteger cs

/-- The production `StrUnsignedDecimalLiteral`: `Infinity`, digits with an optional fraction, or a
fraction alone, followed by an optional exponent. -/
def isStrUnsignedDecimalLiteral (s : List Char) : Bool :=
  s == "Infinity".data ||
    (let intPart := s.takeWhile isDecimalDigit
     match s.dropWhile isDecimalDigit with
     | [] => !intPart.isEmpty
     | c :: cs =>
       if c = '.' then
         let fracPart := cs.takeWhile isDecimalDigit
         (!intPart.isEmpty || !fracPart.isEmpty) &&
           isExponentPartOpt (cs.dropWhile isDecimalDigit)
       else !intPart.isEmpty && isExponentPartOpt (c :: cs))

/-- The production `StrNumericLiteral`: an optionally signed decimal literal, or an unsigned binary,
octal or hexadecimal integer literal. -/
def isStrNumericLiteral (s : List Char) : Bool :=
  match s with
  | [] => false
  | c :: cs =>
    (if c = '+' ∨ c = '-' then isStrUnsignedDecimalLiteral cs
     else isStrUnsignedDecimalLiteral (c :: cs)) ||
    (match cs with
     | [] => false
     | d :: ds =>
       c = '0' &&
         (((d = 'x' ∨ d = 'X') && isDigitRun 16 ds) ||
          ((d = 'o' ∨ d = 'O') && isDigitRun 8 ds) ||
          ((d = 'b' ∨ d = 'B') && isDigitRun 2 ds)))

/-- The test `isNaN(s)` on a string: `Number(s)` is `NaN` unless the string, with the white space
around it removed, is empty (the number 0) or a numeric literal. -/
def isNaNString (s : List Char) : Bool :=
  let t := trimChars s
  !(t.isEmpty || isStrNumericLiteral t)

/-- The value of a digit run in a radix, most significant digit first. -/
def digitsValue (radix : Nat) (ds : List Char) : Nat :=
  ds.foldl (fun acc c => acc * radix + (digitValue c).getD 0) 0

/-- The value of an optional `ExponentPart` that `isExponentPartOpt` accepts. -/
def exponentValue (s : List Char) : Int :=
  match s with
  | [] => 0
  | _ :: cs =>
    match cs with
    | [] => 0
    | c :: ds =>
      if c = '-' then -(digitsValue 10 ds : Int)
      else if c = '+' then (digitsValue 10 ds : Int)
      else (digitsValue 10 (c :: ds) : Int)

/-- The Number value of a `StrUnsignedDecimalLiteral` that `isStrUnsignedDecimalLiteral`
accepts: the exact decimal value, digits `d`, fraction of `n` digits and exponent `e`
giving `d * 10 ^ (e - n)`, rounded to a double. -/
def unsignedDecimalValue (s : List Char) : JSNumber :=
  if s == "Infinity".data then .infinity false
  else
    let intPart := s.takeWhile isDecimalDigit
    let rest := s.dropWhile isDecimalDigit
    let fracPart := match rest with
      | [] => []
      | c :: cs => if c = '.' then cs.takeWhile isDecimalDigit else []
    let expPart := match rest with
      | [] => []
      | c :: cs => if c = '.' then cs.dropWhile isDecimalDigit else c :: cs
    let d := digitsValue 10 (intPart ++ fracPart)
    let e := exponentValue expPart
    roundDouble (mkRat ((d * 10 ^ e.toNat : Nat) : Int) (10 ^ (fracPart.length + (-e).toNat)))

/-- The Number value of a `StrNumericLiteral` that `isStrNumericLiteral` accepts. -/
def numericLiteralValue (s : List Char) : JSNumber :=
  match s with
  | [] => .nan
  | c :: cs =>
    if c = '-' then jsNegate (unsignedDecimalValue cs)
    else if c = '+' then unsignedDecimalValue cs
    else
      match cs with
      | [] => unsignedDecimalValue (c :: cs)
      | d :: ds =>
        if c = '0' ∧ (d = 'x' ∨ d = 'X') then roundDouble (digitsValue 16 ds : Nat)
        else if c = '0' ∧ (d = 'o' ∨ d = 'O') then roundDouble (digitsValue 8 ds : Nat)
        else if c = '0' ∧ (d = 'b' ∨ d = 'B') then roundDouble (digitsValue 2 ds : Nat)
        else unsignedDecimalValue (c :: cs)

/-- The conversion `Number(s)` of a string: 0 for a string that is empty once the white
space around it is removed, the value of a numeric literal, `NaN` for anything else. -/
def stringToNumber (s : List Char) : JSNumber :=
  let t := trimChars s
  if t.isEmpty then .finite 0
  else if isStrNumericLiteral t then numericLiteralValue t
  else .nan

/-- The conversion `Number(v)` of a scalar JSON value. -/
def toNumber : JsonValue → JSNumber
  | .number x => x
  | .string s => stringToNumber s.data
  | .bool b => if b then .finite 1 else .finite 0
  | .null => .finite 0

/-- The mathematical integer that `parseInt(s)`, without a radix argument, reads before
it converts it to a Number; `none` when it reads no digit.  Leading white space is
skipped, a sign is read, a `0x`/`0X` mark selects radix 16, then the longest run of
digits is read. -/
def parseIntChars (s : List Char) : Option Int :=
  let s1 := trimStartChars s
  let negative : Bool := match s1 with
    | [] => false
    | c :: _ => c = '-'
  let s2 := match s1 with
    | [] => []
    | c :: cs => if c = '+' ∨ c = '-' then cs else c :: cs
  let hex : Bool := match s2 with
    | c :: d :: _ => c = '0' && (d = 'x' ∨ d = 'X')
    | _ => false
  let radix := if hex then 16 else 10
  let s3 := if hex then s2.drop 2 else s2
  let z := s3.takeWhile (isRadixDigit radix)
  if z.isEmpty then none
  else if negative then some (-(digitsValue radix z : Int))
  else some (digitsValue radix z : Int)

/-- The function `parseInt(s)` without a radix argument: the integer read, converted to
a Number, or `NaN` when no digit is read. -/
def parseInt (s : List Char) : JSNumber :=
  match parseIntChars s with
  | none => .nan
  | some i => roundDouble (i : ℚ)

/-- The coercion `parseInt(parts[1]) || 0`.  `parts[1]` is `undefined` (`none`) on a line
without a comma, and `parseInt(undefined)` is `NaN`. -/
def parseIntOrZero (field : Option (List Char)) : JSNumber :=
  match field with
  | none => .finite 0
  | some s => orZero (parseInt s)

/-! ## Data model of the responses -/

/-- One element of `keywordObjects`: `{ keyword, volume, intent }`. -/
structure KeywordObject where
  keyword : String
  volume : JSNumber
  intent : String
  deriving DecidableEq, Repr

/-- The object literal `keywordsByIntent`, with its four own keys. -/
structure IntentBuckets where
  Informational : List KeywordObject
  Transactional : List KeywordObject
  Commercial : List KeywordObject
  Navigational : List KeywordObject
  deriving DecidableEq, Repr

/-- The object literal `stats.intentDistribution`. -/
structure IntentDistribution where
  Informational : Nat
  Transactional : Nat
  Commercial : Nat
  Navigational : Nat
  deriving DecidableEq, Repr

/-- The object literal `stats`. -/
structure Stats where
  totalKeywords : Nat
  totalClusters : Nat
  totalVolume : JSNumber
  intentDistribution : IntentDistribution
  deriving DecidableEq, Repr

/-- The body of a `success: true` response. -/
structure Payload where
  keywordsByIntent : IntentBuckets
  stats : Stats
  allKeywords : List KeywordObject
  deriving DecidableEq, Repr

/-- What a handler sends: `res.json({ success: true, ... })`, or
`res.status(code).json({ success: false, error })`. -/
inductive Response where
  | success (payload : Payload)
  | failure (status : Nat) (error : String)
  deriving DecidableEq, Repr

/-- The parsed JSON body of `/api/process-keywords`; `none` is an absent property.
`keywords` is an array of strings and `volumes` an array of scalar JSON values. -/
structure RequestBody where
  keywords : Option (List String)
  volumes : Option (List JsonValue)
  deriving DecidableEq, Repr

/-! ## Shared steps of the two handlers -/

/-- The method `array.map((x, index) => f(x, index))`, the index starting at `i`. -/
def mapWithIndex {α β : Type} (f : α → Nat → β) : List α → Nat → List β
  | [], _ => []
  | a :: as, i => f a i :: mapWithIndex f as (i + 1)

/-- The initial value of `keywordsByIntent`: four empty arrays. -/
def emptyBuckets : IntentBuckets :=
  { Informational := [], Transactional := [], Commercial := [], Navigational := [] }

/-- One step `keywordsByIntent[item.intent].push(item)`.  The property lookup finds an
array only for the four own keys; for any other label the lookup is `undefined` and
`.push` throws a `TypeError`. -/
def pushByIntent (b : IntentBuckets) (item : KeywordObject) : Except String IntentBuckets :=
  if item.intent = "Informational" then
    .ok { b with Informational := b.Informational ++ [item] }
  else if item.intent = "Transactional" then
    .ok { b with Transactional := b.Transactional ++ [item] }
  else if item.intent = "Commercial" then
    .ok { b with Commercial := b.Commercial ++ [item] }
  else if item.intent = "Navigational" then
    .ok { b with Navigational := b.Navigational ++ [item] }
  else
    .error "Cannot read properties of undefined (reading 'push')"

/-- The loop `keywordObjects.forEach(item => keywordsByIntent[item.intent].push(item))`
started from the buckets `b`; it stops at the first throw. -/
def forEachPush : List KeywordObject → IntentBuckets → Except String IntentBuckets
  | [], b => .ok b
  | item :: items, b =>
    match pushByIntent b item with
    | .ok b1 => forEachPush items b1
    | .error e => .error e

/-- The fold `values.reduce((a, b) => a + b, 0)`, every `+` an addition of doubles. -/
def sumReduce (values : List JSNumber) : JSNumber :=
  values.foldl (fun a b => jsAdd a b) (.finite 0)

/-- The object literal `stats` of both handlers, built from `keywords.length`, the
volume array and the filled buckets. -/
def mkStats (keywordCount : Nat) (volumes : List JSNumber) (b : IntentBuckets) : Stats :=
  { totalKeywords := keywordCount
    totalClusters := keywordCount
    totalVolume := sumReduce volumes
    intentDistribution :=
      { Informational := b.Informational.length
        Transactional := b.Transactional.length
        Commercial := b.Commercial.length
        Navigational := b.Navigational.length } }

/-! ## `/api/process-keywords` -/

/-- The coercion `Number(v) || 0` of one element of `volumes`. -/
def numberOrZero (v : JsonValue) : JSNumber :=
  orZero (toNumber v)

/-- The array `parsedVolumes`. -/
def parsedVolumes (keywords : List String) (volumes : List JsonValue) : List JSNumber :=
  if volumes.length = keywords.length then volumes.map numberOrZero
  else List.replicate keywords.length (.finite 0)

/-- The array `keywordObjects` of `/api/process-keywords`.  `pv[index]` is read with a
default that is never used: `parsedVolumes` has `keywords.length` elements. -/
def keywordObjects (toLowerCase : String → String) (keywords : List String)
    (pv : List JSNumber) : List KeywordObject :=
  mapWithIndex
    (fun keyword index =>
      { keyword := keyword, volume := pv.getD index (.finite 0),
        intent := detectIntent toLowerCase keyword })
    keywords 0

/-- The handler of `POST /api/process-keywords`, from the parsed body to the response.
A throw inside the `try` block becomes the status 500 response of the `catch`. -/
def processKeywords (toLowerCase : String → String) (body : RequestBody) : Response :=
  let keywords := body.keywords.getD []
  let volumes := body.volumes.getD []
  if keywords.length = 0 then
    .failure 400 "No keywords provided"
  else
    let pv := parsedVolumes keywords volumes
    let objs := keywordObjects toLowerCase keywords pv
    match forEachPush objs emptyBuckets with
    | .error e => .failure 500 e
    | .ok keywordsByIntent =>
      .success
        { keywordsByIntent := keywordsByIntent
          stats := mkStats keywords.length pv keywordsByIntent
          allKeywords := objs }

/-! ## `/api/process-csv` -/

/-- The method `s.split(sep)` for a one-character separator: the pieces between the separators,
always at least one. -/
def splitChars (sep : Char) : List Char → List (List Char)
  | [] => [[]]
  | c :: cs =>
    if c = sep then [] :: splitChars sep cs
    else
      match splitChars sep cs with
      | [] => [[c]]
      | piece :: pieces => (c :: piece) :: pieces

/-- The test `/keyword/i.test(line)`.  The pattern has no `u` flag, so a character of the line
matches a pattern letter when their upper-case mappings agree, a mapping from outside
Basic Latin into it being ignored: the pattern letters match exactly their two Basic
Latin cases. -/
def testKeywordRegex (line : List Char) : Bool :=
  includesChars (line.map Char.toLower) "keyword".data

/-- The array `lines`: the text split at line feeds, each piece trimmed, the empty
pieces removed. -/
def csvLines (content : String) : List (List Char) :=
  ((splitChars '\n' content.data).map trimChars).filter (fun l => !l.isEmpty)

/-- The body of `lines.forEach((line, index) => ...)`, on the pair of arrays
`(keywords, volumes)`. -/
def csvRow (acc : List String × List JSNumber) (line : List Char) (index : Nat) :
    List String × List JSNumber :=
  if index = 0 ∧ testKeywordRegex line = true then acc
  else
    let parts := (splitChars ',' line).map trimChars
    match parts with
    | [] => acc
    | first :: others =>
      if !first.isEmpty && isNaNString first then
        (acc.1 ++ [String.mk first], acc.2 ++ [parseIntOrZero others.head?])
      else acc

/-- The loop `lines.forEach((line, index) => ...)`, the index starting at `i`. -/
def forEachRow :
    List (List Char) → Nat → List String × List JSNumber → List String × List JSNumber
  | [], _, acc => acc
  | line :: lines, i, acc => forEachRow lines (i + 1) (csvRow acc line i)

/-- The arrays `keywords` and `volumes` after the loop over the lines. -/
def csvColumns (content : String) : List String × List JSNumber :=
  forEachRow (csvLines content) 0 ([], [])

/-- The array `keywordObjects` of `/api/process-csv`.  `volumes[i]` is read with a
default that is never used: the loop pushes to both arrays together. -/
def csvKeywordObjects (toLowerCase : String → String) (keywords : List String)
    (volumes : List JSNumber) : List KeywordObject :=
  mapWithIndex
    (fun keyword i =>
      { keyword := keyword, volume := volumes.getD i (.finite 0),
        intent := detectIntent toLowerCase keyword })
    keywords 0

/-- The handler of `POST /api/process-csv`, from the uploaded file's text (`none` when
no file came with the request) to the response. -/
def processCsv (toLowerCase : String → String) (file : Option String) : Response :=
  match file with
  | none => .failure 400 "No file uploaded"
  | some content =>
    let keywords := (csvColumns content).1
    let volumes := (csvColumns content).2
    let objs := csvKeywordObjects toLowerCase keywords volumes
    match forEachPush objs emptyBuckets with
    | .error e => .failure 500 e
    | .ok keywordsByIntent =>
      .success
        { keywordsByIntent := keywordsByIntent
          stats := mkStats keywords.length volumes keywordsByIntent
          allKeywords := objs }

/-- The second half of the `/api/process-csv` handler: the response built from the arrays
`keywords` and `volumes` once the loop over the lines has filled them. -/
def csvResponse (toLowerCase : String → String) (keywords : List String)
    (volumes : List JSNumber) : Response :=
  let objs := csvKeywordObjects toLowerCase keywords volumes
  match forEachPush objs emptyBuckets with
  | .error e => .failure 500 e
  | .ok keywordsByIntent =>
    .success
      { keywordsByIntent := keywordsByIntent
        stats := mkStats keywords.length volumes keywordsByIntent
        allKeywords := objs }

/-! ## The CSV records, as the specification words them -/

/-- The trimmed first comma-separated field of a line. -/
def firstField (line : List Char) : List Char :=
  trimChars ((splitChars ',' line).headD [])

/-- The trimmed second comma-separated field of a line, `none` on a line without a
comma. -/
def secondField (line : List Char) : Option (List Char) :=
  ((splitChars ',' line).tail.head?).map trimChars

/-- Specification side of the CSV path: is the line at position `index` among the
non-blank trimmed lines kept?  It is dropped when it is the first one and contains
"keyword" in any Basic Latin case, and when its first field is empty or numeric. -/
def keptLineSpec (index : Nat) (line : List Char) : Bool :=
  !(index == 0 && decide ("keyword".data <:+: line.map Char.toLower)) &&
    !(firstField line).isEmpty && isNaNString (firstField line)

/-- Specification side of the CSV path: the (keyword, volume) records are, in order, the
kept lines, each giving its first field and the integer parsed from its second field
or 0. -/
def csvRecordsSpec (content : String) : List (String × JSNumber) :=
  ((csvLines content).enum.filter (fun il => keptLineSpec il.1 il.2)).map
    (fun il => (String.mk (firstField il.2), parseIntOrZero (secondField il.2)))

/-! ## The front end of the structured path (`public/script.js`) -/

/-- The body of `lines.forEach(line => ...)` in `analyzeKeywords`, on the pair of arrays
`(keywords, volumes)`; the volume is `parts[1] ? parseInt(parts[1]) || 0 : 0`. -/
def analyzeRow (acc : List String × List JSNumber) (line : List Char) :
    List String × List JSNumber :=
  let parts := (splitChars ',' line).map trimChars
  match parts with
  | [] => acc
  | first :: others =>
    if !first.isEmpty then
      (acc.1 ++ [String.mk first],
        acc.2 ++ [match others.head? with
          | some part => if !part.isEmpty then orZero (parseInt part) else .finite 0
          | none => .finite 0])
    else acc

/-- A number after `JSON.stringify` in the browser and `JSON.parse` on the server: a
finite number comes back as it was, an infinity or `NaN` is written `null`. -/
def numberToJson : JSNumber → JsonValue
  | .finite a => .number (.finite a)
  | _ => .null

/-- The request body that `analyzeKeywords` posts to `/api/process-keywords` for the
text of the input box; `none` when the text is empty after `trim`, in which case an
error is shown and nothing is sent. -/
def analyzeKeywords (value : String) : Option RequestBody :=
  let text := trimChars value.data
  if text.isEmpty then none
  else
    let lines := (splitChars '\n' text).filter (fun line => !(trimChars line).isEmpty)
    let columns := lines.foldl analyzeRow ([], [])
    some { keywords := some columns.1, volumes := some (columns.2.map numberToJson) }

/-! ## The clusterer (`clusterer.js`) -/

/-- The method `inferIntent(keyword)` of `SERPKeywordClusterer`. -/
def inferIntent (toLowerCase : String → String) (keyword : String) : String :=
  let kw := toLowerCase keyword
  if includes kw "how" || includes kw "guide" then "Informational"
  else if includes kw "buy" || includes kw "price" then "Transactional"
  else if includes kw "nike" then "Navigational"
  else "Commercial"

/-- One element of the array that `clusterKeywords` returns. -/
structure Cluster where
  cluster_id : Nat
  primary_keyword : String
  keywords : List String
  total_volume : JSNumber
  intent : String
  cluster_size : Nat
  shared_urls : List String
  deriving DecidableEq, Repr

/-- The step `clusters[clusterId] ??= []; clusters[clusterId].push(kw)` on the object
`clusters`, kept as its list of entries.  The keys are integer indices, which an object
enumerates in ascending order. -/
def pushCluster : List (Nat × List String) → Nat → String → List (Nat × List String)
  | [], clusterId, kw => [(clusterId, [kw])]
  | (id, kws) :: rest, clusterId, kw =>
    if id = clusterId then (id, kws ++ [kw]) :: rest
    else if clusterId < id then (clusterId, [kw]) :: (id, kws) :: rest
    else (id, kws) :: pushCluster rest clusterId kw

/-- The loop `keywords.forEach((kw, i) => ...)` that fills `clusters`, the index starting
at `i`; `Math.floor(i / 2)` is the cluster of position `i`. -/
def buildClusters : List String → Nat → List (Nat × List String) → List (Nat × List String)
  | [], _, clusters => clusters
  | kw :: kws, i, clusters => buildClusters kws (i + 1) (pushCluster clusters (i / 2) kw)

/-- The fold `kws.reduce((s, k) => s + volumes[keywords.indexOf(k)], 0)`; reading past the
end of `volumes` gives `undefined` and turns the sum into `NaN`. -/
def clusterVolume (keywords : List String) (volumes : List JSNumber) (kws : List String) :
    JSNumber :=
  kws.foldl
    (fun s k =>
      match (keywords.indexOf? k).bind (fun j => volumes[j]?) with
      | some v => jsAdd s v
      | none => .nan)
    (.finite 0)

/-- The callback of `Object.entries(clusters).map(([id, kws]) => ...)`.  With an empty
`kws` the call `inferIntent(kws[0])` throws.  `mockSERPs` is the table imported from
`mockSerps.js`; `serpData[kws[0]]` is what the first loop stored, `mockSERPs[kw] || []`. -/
def clusterEntry (mockSERPs : String → Option (List String)) (toLowerCase : String → String)
    (keywords : List String) (volumes : List JSNumber) (entry : Nat × List String) :
    Except String Cluster :=
  match entry.2 with
  | [] => .error "Cannot read properties of undefined (reading 'toLowerCase')"
  | primary :: others =>
    .ok
      { cluster_id := entry.1
        primary_keyword := primary
        keywords := primary :: others
        total_volume := clusterVolume keywords volumes (primary :: others)
        intent := inferIntent toLowerCase primary
        cluster_size := (primary :: others).length
        shared_urls := (mockSERPs primary).getD [] }

/-- The method `entries.map(callback)` with a callback that can throw: it stops at the
first throw. -/
def mapEntries (f : Nat × List String → Except String Cluster) :
    List (Nat × List String) → Except String (List Cluster)
  | [] => .ok []
  | entry :: entries =>
    match f entry with
    | .error e => .error e
    | .ok c =>
      match mapEntries f entries with
      | .error e => .error e
      | .ok cs => .ok (c :: cs)

/-- The method `clusterKeywords(keywords, volumes = [])` of `SERPKeywordClusterer`; the
result is the array the returned promise resolves to, or the error it rejects with.  The
array `embeddings` is computed by the source and never used; it is left out. -/
def clusterKeywords (mockSERPs : String → Option (List String))
    (toLowerCase : String → String) (keywords : List String)
    (volumes : Option (List JSNumber)) : Except String (List Cluster) :=
  let given := volumes.getD []
  let vols := if given.length ≠ 0 then given else List.replicate keywords.length (.finite 100)
  let clusters := buildClusters keywords 0 []
  mapEntries (clusterEntry mockSERPs toLowerCase keywords vols) clusters

/-- Specification side of the clusterer: the keywords grouped in fixed pairs by input
position, positions `2i` and `2i+1` together, the last one alone when the length is
odd. -/
def positionPairs : List String → List (List String)
  | [] => []
  | [a] => [[a]]
  | a :: b :: rest => [a, b] :: positionPairs rest

/-! ## String lemmas -/

theorem includesChars_iff (s needle : List Char) :
    includesChars s needle = true ↔ needle <:+: s := by
  induction s with
  | nil =>
    cases needle <;> simp [includesChars, List.isPrefixOf]
  | cons c cs ih =>
    rw [includesChars, Bool.or_eq_true, ih, List.infix_cons_iff, List.isPrefixOf_iff_prefix]

theorem infix_dropWhile_iff (p : Char → Bool) (needle s : List Char)
    (hne : needle ≠ []) (hp : ∀ c ∈ needle, p c = false) :
    needle <:+: s.dropWhile p ↔ needle <:+: s := by
  induction s with
  | nil => simp
  | cons c cs ih =>
    by_cases hc : p c = true
    · rw [List.dropWhile_cons_of_pos hc, ih, List.infix_cons_iff]
      constructor
      · exact Or.inr
      · rintro (h | h)
        · obtain ⟨a, t, rfl⟩ := List.exists_cons_of_ne_nil hne
          have hac : a = c := (List.cons_prefix_cons.mp h).1
          have := hp a (List.mem_cons_self a t)
          rw [hac, hc] at this
          exact absurd this (by simp)
        · exact h
    · rw [List.dropWhile_cons_of_neg hc]

theorem infix_trimChars_iff (needle s : List Char)
    (hne : needle ≠ []) (hp : ∀ c ∈ needle, isWhiteSpace c = false) :
    needle <:+: trimChars s ↔ needle <:+: s := by
  have hne' : needle.reverse ≠ [] := by simpa using hne
  have hp' : ∀ c ∈ needle.reverse, isWhiteSpace c = false := by
    intro c hc
    exact hp c (List.mem_reverse.mp hc)
  unfold trimChars trimEndChars trimStartChars
  rw [← List.reverse_infix, List.reverse_reverse, infix_dropWhile_iff _ _ _ hne' hp',
    List.reverse_infix, infix_dropWhile_iff _ _ _ hne hp]

/-- On a needle without white space, `includes` does not see the `trim`. -/
theorem includes_trim_iff (s needle : String)
    (hne : needle.data ≠ []) (hp : ∀ c ∈ needle.data, isWhiteSpace c = false) :
    includes (trim s) needle = true ↔ needle.data <:+: s.data := by
  unfold includes trim
  rw [includesChars_iff]
  exact infix_trimChars_iff _ _ hne hp

/-- The thirteen trigger words are non-empty and free of white space, so the test
`kw.includes(w)` on the trimmed text is the substring test on the lower-cased text. -/
theorem includes_trigger_iff (s w : String)
    (hw : w ∈ ["best", "buy", "price", "purchase", "order", "shop", "cost",
      "login", "website", "site", "official", "app", "web"]) :
    includes (trim s) w = true ↔ w.data <:+: s.data := by
  have h : w.data ≠ [] ∧ ∀ c ∈ w.data, isWhiteSpace c = false := by
    simp only [List.mem_cons, List.mem_singleton, List.not_mem_nil, or_false] at hw
    rcases hw with h | h | h | h | h | h | h | h | h | h | h | h | h <;> subst h <;> decide
  exact includes_trim_iff s w h.1 h.2

/-- Claim C1: a keyword whose lower-cased text contains "best" is Commercial, whatever
other trigger words it contains. -/
theorem detectIntent_best_commercial (toLowerCase : String → String) (keyword : String)
    (h : "best".data <:+: (toLowerCase keyword).data) :
    detectIntent toLowerCase keyword = "Commercial" := by
  have hb := (includes_trigger_iff (toLowerCase keyword) "best" (by decide)).mpr h
  simp [detectIntent, hb]

/-- Claim C2: without "best", a keyword whose lower-cased text contains one of the six
transactional trigger words is Transactional, navigational trigger words or not. -/
theorem detectIntent_transactional (toLowerCase : String → String) (keyword : String)
    (hbest : ¬ "best".data <:+: (toLowerCase keyword).data)
    (h : ∃ w ∈ ["buy", "price", "purchase", "order", "shop", "cost"],
      w.data <:+: (toLowerCase keyword).data) :
    detectIntent toLowerCase keyword = "Transactional" := by
  have hb : includes (trim (toLowerCase keyword)) "best" = false := by
    rw [← Bool.not_eq_true, includes_trigger_iff _ "best" (by decide)]
    exact hbest
  obtain ⟨w, hw, hin⟩ := h
  have hmem : w ∈ ["best", "buy", "price", "purchase", "order", "shop", "cost",
      "login", "website", "site", "official", "app", "web"] := by
    simp only [List.mem_cons, List.mem_singleton, List.not_mem_nil, or_false] at hw ⊢
    tauto
  have hinc := (includes_trigger_iff (toLowerCase keyword) w hmem).mpr hin
  simp only [List.mem_cons, List.mem_singleton, List.not_mem_nil, or_false] at hw
  rcases hw with h | h | h | h | h | h <;> subst h <;> simp [detectIntent, hb, hinc]

/-- Claim C3: without "best" and without a transactional trigger word, a keyword whose
lower-cased text contains one of the six navigational trigger words is Navigational. -/
theorem detectIntent_navigational (toLowerCase : String → String) (keyword : String)
    (hbest : ¬ "best".data <:+: (toLowerCase keyword).data)
    (htrans : ∀ w ∈ ["buy", "price", "purchase", "order", "shop", "cost"],
      ¬ w.data <:+: (toLowerCase keyword).data)
    (h : ∃ w ∈ ["login", "website", "site", "official", "app", "web"],
      w.data <:+: (toLowerCase keyword).data) :
    detectIntent toLowerCase keyword = "Navigational" := by
  have hf : ∀ w ∈ ["best", "buy", "price", "purchase", "order", "shop", "cost"],
      includes (trim (toLowerCase keyword)) w = false := by
    intro w hw
    have hmem : w ∈ ["best", "buy", "price", "purchase", "order", "shop", "cost",
        "login", "website", "site", "official", "app", "web"] := by
      simp only [List.mem_cons, List.mem_singleton, List.not_mem_nil, or_false] at hw ⊢
      tauto
    rw [← Bool.not_eq_true, includes_trigger_iff _ w hmem]
    simp only [List.mem_cons, List.mem_singleton, List.not_mem_nil, or_false] at hw
    rcases hw with h | h
    · subst h
      exact hbest
    · exact htrans w (by
        simp only [List.mem_cons, List.mem_singleton, List.not_mem_nil, or_false]
        exact h)
  obtain ⟨w, hw, hin⟩ := h
  have hmem : w ∈ ["best", "buy", "price", "purchase", "order", "shop", "cost",
      "login", "website", "site", "official", "app", "web"] := by
    simp only [List.mem_cons, List.mem_singleton, List.not_mem_nil, or_false] at hw ⊢
    tauto
  have hinc := (includes_trigger_iff (toLowerCase keyword) w hmem).mpr hin
  have h1 := hf "best" (by decide)
  have h2 := hf "buy" (by decide)
  have h3 := hf "price" (by decide)
  have h4 := hf "purchase" (by decide)
  have h5 := hf "order" (by decide)
  have h6 := hf "shop" (by decide)
  have h7 := hf "cost" (by decide)
  simp only [List.mem_cons, List.mem_singleton, List.not_mem_nil, or_false] at hw
  rcases hw with h | h | h | h | h | h <;> subst h <;>
    simp [detectIntent, h1, h2, h3, h4, h5, h6, h7, hinc]

/-- Claim C4: a keyword is Informational exactly when its lower-cased text contains none
of the thirteen trigger words. -/
theorem detectIntent_informational_iff (toLowerCase : String → String) (keyword : String) :
    detectIntent toLowerCase keyword = "Informational" ↔
      ∀ w ∈ ["best", "buy", "price", "purchase", "order", "shop", "cost",
        "login", "website", "site", "official", "app", "web"],
        ¬ w.data <:+: (toLowerCase keyword).data := by
  have e := includes_trigger_iff (toLowerCase keyword)
  simp only [List.forall_mem_cons, List.not_mem_nil, false_implies, implies_true, and_true]
  rw [← e "best" (by decide), ← e "buy" (by decide), ← e "price" (by decide),
    ← e "purchase" (by decide), ← e "order" (by decide), ← e "shop" (by decide),
    ← e "cost" (by decide), ← e "login" (by decide), ← e "website" (by decide),
    ← e "site" (by decide), ← e "official" (by decide), ← e "app" (by decide),
    ← e "web" (by decide)]
  unfold detectIntent
  simp only [Bool.or_eq_true, Bool.not_eq_true]
  constructor
  · intro h
    split_ifs at h with h1 h2 h3
    · exact absurd h (by decide)
    · exact absurd h (by decide)
    · exact absurd h (by decide)
    · simp only [not_or, Bool.not_eq_true] at h1 h2 h3
      tauto
  · intro h
    simp [h]

/-! ## Case variations -/

theorem char_eq_ofNat (c : Char) (n : Nat) (h : c.toNat = n) : c = Char.ofNat n := by
  rw [← h, Char.ofNat_toNat]

/-- On Basic Latin the table `lowerCaseOf` is the ASCII lower-case map. -/
theorem lowerCaseOf_ascii (c : Char) (h : c.toNat < 128) : lowerCaseOf c = [c.toLower] := by
  obtain ⟨n, hn⟩ : ∃ n, c.toNat = n := ⟨_, rfl⟩
  rw [hn] at h
  rw [char_eq_ofNat c n hn]
  interval_cases n <;> decide

/-- On Basic Latin the table `upperCaseOf` is the ASCII upper-case map. -/
theorem upperCaseOf_ascii (c : Char) (h : c.toNat < 128) : upperCaseOf c = [c.toUpper] := by
  obtain ⟨n, hn⟩ : ∃ n, c.toNat = n := ⟨_, rfl⟩
  rw [hn] at h
  rw [char_eq_ofNat c n hn]
  interval_cases n <;> decide

theorem ascii_toUpper (c : Char) (h : c.toNat < 128) :
    c.toUpper.toNat < 128 ∧ c.toUpper.toLower = c.toLower := by
  obtain ⟨n, hn⟩ : ∃ n, c.toNat = n := ⟨_, rfl⟩
  rw [hn] at h
  rw [char_eq_ofNat c n hn]
  interval_cases n <;> decide

theorem ascii_toLower (c : Char) (h : c.toNat < 128) :
    c.toLower.toNat < 128 ∧ c.toLower.toLower = c.toLower := by
  obtain ⟨n, hn⟩ : ∃ n, c.toNat = n := ⟨_, rfl⟩
  rw [hn] at h
  rw [char_eq_ofNat c n hn]
  interval_cases n <;> decide

theorem jsToLowerCase_ascii (s : String) (h : ∀ c ∈ s.data, c.toNat < 128) :
    jsToLowerCase s = ⟨s.data.map Char.toLower⟩ := by
  unfold jsToLowerCase
  congr 1
  revert h
  induction s.data with
  | nil => intro _; rfl
  | cons c cs ih =>
    intro h
    rw [List.flatMap_cons, List.map_cons, ih (fun d hd => h d (List.mem_cons_of_mem c hd)),
      lowerCaseOf_ascii c (h c (List.mem_cons_self c cs))]
    rfl

theorem jsToUpperCase_ascii (s : String) (h : ∀ c ∈ s.data, c.toNat < 128) :
    jsToUpperCase s = ⟨s.data.map Char.toUpper⟩ := by
  unfold jsToUpperCase
  congr 1
  revert h
  induction s.data with
  | nil => intro _; rfl
  | cons c cs ih =>
    intro h
    rw [List.flatMap_cons, List.map_cons, ih (fun d hd => h d (List.mem_cons_of_mem c hd)),
      upperCaseOf_ascii c (h c (List.mem_cons_self c cs))]
    rfl

theorem map_toLower_map_toUpper (l : List Char) (h : ∀ c ∈ l, c.toNat < 128) :
    (l.map Char.toUpper).map Char.toLower = l.map Char.toLower := by
  rw [List.map_map]
  apply List.map_congr_left
  intro c hc
  exact (ascii_toUpper c (h c hc)).2

theorem map_toLower_map_toLower (l : List Char) (h : ∀ c ∈ l, c.toNat < 128) :
    (l.map Char.toLower).map Char.toLower = l.map Char.toLower := by
  rw [List.map_map]
  apply List.map_congr_left
  intro c hc
  exact (ascii_toLower c (h c hc)).2

theorem detectIntent_congr (toLowerCase : String → String) (k1 k2 : String)
    (h : toLowerCase k1 = toLowerCase k2) :
    detectIntent toLowerCase k1 = detectIntent toLowerCase k2 := by
  unfold detectIntent
  rw [h]

/-! ## Number lemmas -/

theorem bitLog_spec (fuel n : Nat) (hn : 0 < n) (hf : n ≤ fuel) :
    2 ^ bitLog fuel n ≤ n ∧ n < 2 ^ (bitLog fuel n + 1) := by
  induction fuel generalizing n with
  | zero => omega
  | succ fuel ih =>
    unfold bitLog
    split_ifs with h2
    · have h1 : n = 1 := by omega
      subst h1
      simp
    · have h := ih (n / 2) (by omega) (by omega)
      constructor
      · rw [pow_succ]
        have := h.1
        omega
      · rw [pow_succ]
        have := h.2
        omega

theorem floorLog2_one (p : Nat) (hp : 0 < p) : floorLog2 p 1 = (bitLog p p : Int) := by
  have h1 : bitLog 1 1 = 0 := by decide
  have hs := (bitLog_spec p p hp (le_refl p)).1
  unfold floorLog2
  simp only [h1, Nat.cast_zero, sub_zero, Int.natCast_nonneg, if_true, Int.toNat_ofNat, one_mul,
    hs]

theorem roundHalfEven_mul (a b : Nat) (hb : 0 < b) : roundHalfEven (a * b) b = a := by
  unfold roundHalfEven
  simp [Nat.mul_div_cancel _ hb, hb]

theorem bitLog_le (p k : Nat) (hp : 0 < p) (h : p ≤ 2 ^ k) : bitLog p p ≤ k := by
  have hs := (bitLog_spec p p hp (le_refl p)).1
  by_contra hlt
  have hk : k + 1 ≤ bitLog p p := by omega
  have h1 : 2 ^ (k + 1) ≤ 2 ^ bitLog p p := Nat.pow_le_pow_right (by decide) hk
  have h2 : 2 ^ k < 2 ^ (k + 1) := Nat.pow_lt_pow_right (by decide) (Nat.lt_succ_self k)
  omega

theorem natAbs_cast_signed (i : Int) :
    (if i < 0 then -((i.natAbs : Nat) : ℚ) else ((i.natAbs : Nat) : ℚ)) = (i : ℚ) := by
  have hc : ((i.natAbs : Nat) : ℚ) = (((i.natAbs : Nat) : Int) : ℚ) :=
    (Int.cast_natCast _).symm
  rw [hc]
  split_ifs with h
  · rw [Int.ofNat_natAbs_of_nonpos (le_of_lt h)]
    push_cast
    ring
  · rw [Int.natAbs_of_nonneg (not_lt.mp h)]

theorem roundHalfEven_one (a : Nat) : roundHalfEven a 1 = a := by
  have h := roundHalfEven_mul a 1 (by decide)
  rwa [Nat.mul_one] at h

theorem mkRat_mul_pow (p k : Nat) : mkRat ((p * 2 ^ k : Nat) : Int) (2 ^ k) = (p : ℚ) := by
  have h2 : (2 : Nat) ^ k ≠ 0 := by positivity
  have h := @Rat.mkRat_mul_right (p : Int) 1 (2 ^ k) h2
  rw [Nat.one_mul] at h
  have hc : ((p * 2 ^ k : Nat) : Int) = (p : Int) * ((2 ^ k : Nat) : Int) := by push_cast; ring
  rw [hc, h, Rat.mkRat_one, Int.cast_natCast]

/-- An integer of magnitude at most `2 ^ 53` is a double: rounding leaves it as it is. -/
theorem roundDouble_intCast (i : Int) (h : i.natAbs ≤ 2 ^ 53) :
    roundDouble (i : ℚ) = .finite (i : ℚ) := by
  by_cases hp0 : i.natAbs = 0
  · have hi : i = 0 := Int.natAbs_eq_zero.mp hp0
    subst hi
    decide!
  have hp : 0 < i.natAbs := Nat.pos_of_ne_zero hp0
  have hL := bitLog_le i.natAbs 53 hp h
  have hs := bitLog_spec i.natAbs i.natAbs hp (le_refl _)
  by_cases h53 : bitLog i.natAbs i.natAbs = 53
  · rw [h53] at hs
    have hpe : i.natAbs = 2 ^ 53 := by omega
    rcases Int.natAbs_eq i with hi | hi
    · rw [hi, hpe]
      decide!
    · rw [hi, hpe]
      decide!
  have hL52 : bitLog i.natAbs i.natAbs ≤ 52 := by omega
  unfold roundDouble
  simp only [Rat.num_intCast, Rat.den_intCast, hp0, if_false, floorLog2_one _ hp]
  have hmax : max (bitLog i.natAbs i.natAbs : Int) (-1022) = (bitLog i.natAbs i.natAbs : Int) := by
    omega
  rw [hmax]
  by_cases hu : (0 : Int) ≤ (bitLog i.natAbs i.natAbs : Int) - 52
  · have h52 : bitLog i.natAbs i.natAbs = 52 := by omega
    have hz : ((52 : Nat) : Int) - 52 = 0 := by norm_num
    have hno : ¬ 2 ^ 1024 ≤ i.natAbs :=
      not_le.mpr (lt_of_le_of_lt h (Nat.pow_lt_pow_right (by omega) (by omega)))
    simp only [h52, hz, le_refl, if_true, Int.toNat_zero, pow_zero, Nat.mul_one,
      roundHalfEven_one, true_and, hno, if_false, Rat.mkRat_one, Int.cast_natCast]
    rw [natAbs_cast_signed]
  · have hk : (-((bitLog i.natAbs i.natAbs : Int) - 52)).toNat =
        52 - bitLog i.natAbs i.natAbs := by omega
    simp only [hu, if_false, false_and, hk, roundHalfEven_one, mkRat_mul_pow]
    rw [natAbs_cast_signed]

theorem roundDouble_ne_nan (x : ℚ) : roundDouble x ≠ .nan := by
  unfold roundDouble
  simp only
  split_ifs <;> simp

/-- Rounding an integer gives an integer of the same sign, or the infinity of that
sign. -/
theorem roundDouble_int (i : Int) :
    (∃ m : Nat, roundDouble (i : ℚ) = .finite (if i < 0 then -(m : ℚ) else (m : ℚ))) ∨
      roundDouble (i : ℚ) = .infinity (decide (i < 0)) := by
  unfold roundDouble
  simp only [Rat.num_intCast, Rat.den_intCast]
  by_cases hp0 : i.natAbs = 0
  · left
    refine ⟨0, ?_⟩
    simp [hp0]
  · simp only [hp0, if_false]
    split_ifs with hover hu hneg hneg hneg2
    all_goals first
      | (right; rfl)
      | (left; exact ⟨_, by rw [Rat.mkRat_one, Int.cast_natCast]⟩)
      | (left; exact ⟨_, by rw [roundHalfEven_one, mkRat_mul_pow]⟩)

theorem orZero_ne_nan (x : JSNumber) : orZero x ≠ .nan := by
  cases x <;> simp [orZero]

theorem orZero_of_ne_nan (x : JSNumber) (h : x ≠ .nan) : orZero x = x := by
  cases x with
  | nan => exact absurd rfl h
  | finite a => rfl
  | infinity b => rfl

theorem numberOrZero_ne_nan (v : JsonValue) : numberOrZero v ≠ .nan :=
  orZero_ne_nan _

theorem parseIntOrZero_ne_nan (field : Option (List Char)) : parseIntOrZero field ≠ .nan := by
  cases field with
  | none => simp [parseIntOrZero]
  | some s => exact orZero_ne_nan _

/-- The left-to-right sum of integers is exact while the magnitudes add up to at most
`2 ^ 53`. -/
theorem foldl_jsAdd_int (ints : List Int) :
    ∀ acc : Int, acc.natAbs + (ints.map Int.natAbs).sum ≤ 2 ^ 53 →
      (ints.map (fun (i : Int) => JSNumber.finite (i : ℚ))).foldl (fun a b => jsAdd a b)
          (.finite (acc : ℚ)) =
        .finite ((acc + ints.sum : Int) : ℚ) := by
  induction ints with
  | nil =>
    intro acc _
    simp
  | cons i ints ih =>
    intro acc h
    simp only [List.map_cons, List.sum_cons] at h
    have hle : (acc + i).natAbs ≤ acc.natAbs + i.natAbs := Int.natAbs_add_le acc i
    have hstep : jsAdd (.finite (acc : ℚ)) (.finite (i : ℚ)) = .finite ((acc + i : Int) : ℚ) := by
      simp only [jsAdd]
      rw [← Int.cast_add]
      exact roundDouble_intCast (acc + i) (by omega)
    simp only [List.map_cons, List.foldl_cons, hstep, List.sum_cons]
    rw [ih (acc + i) (by omega), Int.add_assoc]

theorem sumReduce_int (ints : List Int) (h : (ints.map Int.natAbs).sum ≤ 2 ^ 53) :
    sumReduce (ints.map (fun (i : Int) => JSNumber.finite (i : ℚ))) = .finite ((ints.sum : Int) : ℚ) := by
  have := foldl_jsAdd_int ints 0 (by simpa using h)
  simpa [sumReduce] using this

/-! ## Buckets -/

/-- The label returned by `detectIntent` is one of the four keys of `keywordsByIntent`. -/
theorem detectIntent_label (toLowerCase : String → String) (keyword : String) :
    detectIntent toLowerCase keyword = "Informational" ∨
    detectIntent toLowerCase keyword = "Transactional" ∨
    detectIntent toLowerCase keyword = "Commercial" ∨
    detectIntent toLowerCase keyword = "Navigational" := by
  simp only [detectIntent]
  split_ifs <;> simp

/-- With labels among the four keys the loop never throws, and it appends to each bucket
the items carrying its label, in order. -/
theorem forEachPush_ok (items : List KeywordObject) (b : IntentBuckets)
    (h : ∀ o ∈ items, o.intent = "Informational" ∨ o.intent = "Transactional" ∨
      o.intent = "Commercial" ∨ o.intent = "Navigational") :
    forEachPush items b = .ok
      { Informational := b.Informational ++ items.filter (fun o => o.intent = "Informational")
        Transactional := b.Transactional ++ items.filter (fun o => o.intent = "Transactional")
        Commercial := b.Commercial ++ items.filter (fun o => o.intent = "Commercial")
        Navigational := b.Navigational ++ items.filter (fun o => o.intent = "Navigational") } := by
  induction items generalizing b with
  | nil => simp [forEachPush]
  | cons o items ih =>
    have ih1 := fun b1 => ih b1 (fun x hx => h x (List.mem_cons_of_mem o hx))
    rcases h o (List.mem_cons_self o items) with ho | ho | ho | ho <;>
      simp [forEachPush, pushByIntent, ho, ih1, List.filter_cons]

theorem mapWithIndex_length {α β : Type} (f : α → Nat → β) (l : List α) (i : Nat) :
    (mapWithIndex f l i).length = l.length := by
  induction l generalizing i with
  | nil => rfl
  | cons a as ih => simp [mapWithIndex, ih]

/-- Reading `vs[index]` along `ks.map((k, index) => ...)` pairs the two arrays
positionally when `vs` is long enough. -/
theorem mapWithIndex_getD {β : Type} (g : String → JSNumber → β) (vs : List JSNumber)
    (ks : List String) (i : Nat) (h : i + ks.length ≤ vs.length) :
    mapWithIndex (fun k index => g k (vs.getD index (.finite 0))) ks i =
      List.zipWith g ks (vs.drop i) := by
  induction ks generalizing i with
  | nil => simp [mapWithIndex]
  | cons k ks ih =>
    have hi : i < vs.length := by
      simp only [List.length_cons] at h
      omega
    have hd : vs.drop i = vs.getD i (.finite 0) :: vs.drop (i + 1) := by
      rw [List.getD_eq_getElem _ _ hi]
      exact List.drop_eq_getElem_cons hi
    rw [mapWithIndex, ih (i + 1) (by simp only [List.length_cons] at h; omega), hd]
    rfl

theorem parsedVolumes_length (keywords : List String) (volumes : List JsonValue) :
    (parsedVolumes keywords volumes).length = keywords.length := by
  unfold parsedVolumes
  split_ifs with h
  · simp [h]
  · simp

theorem mapWithIndex_intent (toLowerCase : String → String) (vs : List JSNumber)
    (ks : List String) (i : Nat) :
    ∀ o ∈ mapWithIndex
        (fun keyword index =>
          ({ keyword := keyword, volume := vs.getD index (.finite 0),
             intent := detectIntent toLowerCase keyword } : KeywordObject)) ks i,
      o.intent = detectIntent toLowerCase o.keyword := by
  induction ks generalizing i with
  | nil => simp [mapWithIndex]
  | cons k ks ih =>
    intro o ho
    rw [mapWithIndex, List.mem_cons] at ho
    rcases ho with rfl | ho
    · rfl
    · exact ih (i + 1) o ho

/-- The records of `/api/process-keywords` pair keyword `i` with `pv[i]`. -/
theorem keywordObjects_eq_zipWith (toLowerCase : String → String) (ks : List String)
    (pv : List JSNumber) (h : pv.length = ks.length) :
    keywordObjects toLowerCase ks pv =
      List.zipWith
        (fun k v => ({ keyword := k, volume := v, intent := detectIntent toLowerCase k } :
          KeywordObject)) ks pv := by
  unfold keywordObjects
  rw [mapWithIndex_getD
    (fun k v => ({ keyword := k, volume := v, intent := detectIntent toLowerCase k } :
      KeywordObject)) pv ks 0 (by omega)]
  rfl

theorem zipWith_map_volume (toLowerCase : String → String) (ks : List String)
    (pv : List JSNumber) (h : pv.length = ks.length) :
    (List.zipWith
        (fun k v => ({ keyword := k, volume := v, intent := detectIntent toLowerCase k } :
          KeywordObject)) ks pv).map (fun o => o.volume) = pv := by
  induction ks generalizing pv with
  | nil =>
    cases pv with
    | nil => rfl
    | cons v vs => simp at h
  | cons k ks ih =>
    cases pv with
    | nil => simp at h
    | cons v vs =>
      simp only [List.zipWith_cons_cons, List.map_cons]
      rw [ih vs (by simpa using h)]

theorem zipWith_map_keyword (toLowerCase : String → String) (ks : List String)
    (pv : List JSNumber) (h : pv.length = ks.length) :
    (List.zipWith
        (fun k v => ({ keyword := k, volume := v, intent := detectIntent toLowerCase k } :
          KeywordObject)) ks pv).map (fun o => o.keyword) = ks := by
  induction ks generalizing pv with
  | nil => simp
  | cons k ks ih =>
    cases pv with
    | nil => simp at h
    | cons v vs =>
      simp only [List.zipWith_cons_cons, List.map_cons]
      rw [ih vs (by simpa using h)]

/-- The loop over records labelled by `detectIntent` never throws; bucket by bucket it
keeps the records with that label, in input order. -/
theorem forEachPush_detectIntent (toLowerCase : String → String) (objs : List KeywordObject)
    (h : ∀ o ∈ objs, o.intent = detectIntent toLowerCase o.keyword) :
    forEachPush objs emptyBuckets = .ok
      { Informational :=
          objs.filter (fun o => detectIntent toLowerCase o.keyword = "Informational")
        Transactional :=
          objs.filter (fun o => detectIntent toLowerCase o.keyword = "Transactional")
        Commercial :=
          objs.filter (fun o => detectIntent toLowerCase o.keyword = "Commercial")
        Navigational :=
          objs.filter (fun o => detectIntent toLowerCase o.keyword = "Navigational") } := by
  have hl : ∀ o ∈ objs, o.intent = "Informational" ∨ o.intent = "Transactional" ∨
      o.intent = "Commercial" ∨ o.intent = "Navigational" := by
    intro o ho
    rw [h o ho]
    exact detectIntent_label toLowerCase o.keyword
  have hf : ∀ label : String,
      objs.filter (fun o => decide (o.intent = label)) =
        objs.filter (fun o => decide (detectIntent toLowerCase o.keyword = label)) := by
    intro label
    apply List.filter_congr
    intro o ho
    rw [h o ho]
  rw [forEachPush_ok objs emptyBuckets hl]
  simp only [emptyBuckets, List.nil_append, hf]

/-- The four label filters split a list into a permutation of itself. -/
theorem filter_labels_perm (toLowerCase : String → String) (objs : List KeywordObject) :
    List.Perm
      (objs.filter (fun o => detectIntent toLowerCase o.keyword = "Informational") ++
        objs.filter (fun o => detectIntent toLowerCase o.keyword = "Transactional") ++
        objs.filter (fun o => detectIntent toLowerCase o.keyword = "Commercial") ++
        objs.filter (fun o => detectIntent toLowerCase o.keyword = "Navigational"))
      objs := by
  induction objs with
  | nil => simp
  | cons o objs ih =>
    rcases detectIntent_label toLowerCase o.keyword with ho | ho | ho | ho
    · simp only [List.filter_cons, ho, decide_True, decide_False, if_true, if_false,
        String.reduceEq, List.cons_append]
      exact List.Perm.cons o ih
    · simp only [List.filter_cons, ho, decide_True, decide_False, if_true, if_false,
        String.reduceEq, List.append_assoc] at ih ⊢
      exact List.perm_middle.trans (List.Perm.cons o ih)
    · simp only [List.filter_cons, ho, decide_True, decide_False, if_true, if_false,
        String.reduceEq] at ih ⊢
      rw [List.append_assoc] at ih ⊢
      exact List.perm_middle.trans (List.Perm.cons o ih)
    · simp only [List.filter_cons, ho, decide_True, decide_False, if_true, if_false,
        String.reduceEq] at ih ⊢
      exact List.perm_middle.trans (List.Perm.cons o ih)

theorem filter_labels_length (toLowerCase : String → String) (objs : List KeywordObject) :
    (objs.filter (fun o => detectIntent toLowerCase o.keyword = "Informational")).length +
      (objs.filter (fun o => detectIntent toLowerCase o.keyword = "Transactional")).length +
      (objs.filter (fun o => detectIntent toLowerCase o.keyword = "Commercial")).length +
      (objs.filter (fun o => detectIntent toLowerCase o.keyword = "Navigational")).length =
      objs.length := by
  have h := (filter_labels_perm toLowerCase objs).length_eq
  simp only [List.length_append] at h
  exact h

/-! ## The two handlers -/

/-- The response of `/api/process-keywords` on a non-empty keyword list, in closed form. -/
theorem processKeywords_eq (toLowerCase : String → String) (body : RequestBody)
    (keywords : List String) (hk : body.keywords = some keywords) (hne : keywords ≠ []) :
    processKeywords toLowerCase body = .success
      { keywordsByIntent :=
          { Informational :=
              (keywordObjects toLowerCase keywords
                (parsedVolumes keywords (body.volumes.getD []))).filter
                (fun o => detectIntent toLowerCase o.keyword = "Informational")
            Transactional :=
              (keywordObjects toLowerCase keywords
                (parsedVolumes keywords (body.volumes.getD []))).filter
                (fun o => detectIntent toLowerCase o.keyword = "Transactional")
            Commercial :=
              (keywordObjects toLowerCase keywords
                (parsedVolumes keywords (body.volumes.getD []))).filter
                (fun o => detectIntent toLowerCase o.keyword = "Commercial")
            Navigational :=
              (keywordObjects toLowerCase keywords
                (parsedVolumes keywords (body.volumes.getD []))).filter
                (fun o => detectIntent toLowerCase o.keyword = "Navigational") }
        stats :=
          mkStats keywords.length (parsedVolumes keywords (body.volumes.getD []))
            { Informational :=
                (keywordObjects toLowerCase keywords
                  (parsedVolumes keywords (body.volumes.getD []))).filter
                  (fun o => detectIntent toLowerCase o.keyword = "Informational")
              Transactional :=
                (keywordObjects toLowerCase keywords
                  (parsedVolumes keywords (body.volumes.getD []))).filter
                  (fun o => detectIntent toLowerCase o.keyword = "Transactional")
              Commercial :=
                (keywordObjects toLowerCase keywords
                  (parsedVolumes keywords (body.volumes.getD []))).filter
                  (fun o => detectIntent toLowerCase o.keyword = "Commercial")
              Navigational :=
                (keywordObjects toLowerCase keywords
                  (parsedVolumes keywords (body.volumes.getD []))).filter
                  (fun o => detectIntent toLowerCase o.keyword = "Navigational") }
        allKeywords :=
          keywordObjects toLowerCase keywords
            (parsedVolumes keywords (body.volumes.getD [])) } := by
  have hlen : keywords.length ≠ 0 := by
    intro h
    exact hne (List.length_eq_zero.mp h)
  have hpush := forEachPush_detectIntent toLowerCase
    (keywordObjects toLowerCase keywords (parsedVolumes keywords (body.volumes.getD [])))
    (mapWithIndex_intent toLowerCase _ keywords 0)
  simp only [processKeywords, hk, Option.getD_some, hlen, if_false, hpush]

theorem forEachRow_length (lines : List (List Char)) (i : Nat) (acc : List String × List JSNumber)
    (h : acc.1.length = acc.2.length) :
    (forEachRow lines i acc).1.length = (forEachRow lines i acc).2.length := by
  induction lines generalizing i acc with
  | nil => exact h
  | cons line lines ih =>
    rw [forEachRow]
    apply ih
    unfold csvRow
    split_ifs
    · exact h
    · simp only []
      cases List.map trimChars (splitChars ',' line) with
      | nil => exact h
      | cons first others =>
        simp only []
        split_ifs
        · simp [h]
        · exact h

theorem csvColumns_length (content : String) :
    (csvColumns content).2.length = (csvColumns content).1.length :=
  (forEachRow_length _ 0 ([], []) rfl).symm

/-- The response of `/api/process-csv` on an uploaded text, in closed form. -/
theorem processCsv_eq (toLowerCase : String → String) (content : String) :
    processCsv toLowerCase (some content) = .success
      { keywordsByIntent :=
          { Informational :=
              (csvKeywordObjects toLowerCase (csvColumns content).1 (csvColumns content).2).filter
                (fun o => detectIntent toLowerCase o.keyword = "Informational")
            Transactional :=
              (csvKeywordObjects toLowerCase (csvColumns content).1 (csvColumns content).2).filter
                (fun o => detectIntent toLowerCase o.keyword = "Transactional")
            Commercial :=
              (csvKeywordObjects toLowerCase (csvColumns content).1 (csvColumns content).2).filter
                (fun o => detectIntent toLowerCase o.keyword = "Commercial")
            Navigational :=
              (csvKeywordObjects toLowerCase (csvColumns content).1 (csvColumns content).2).filter
                (fun o => detectIntent toLowerCase o.keyword = "Navigational") }
        stats :=
          mkStats (csvColumns content).1.length (csvColumns content).2
            { Informational :=
                (csvKeywordObjects toLowerCase (csvColumns content).1
                  (csvColumns content).2).filter
                  (fun o => detectIntent toLowerCase o.keyword = "Informational")
              Transactional :=
                (csvKeywordObjects toLowerCase (csvColumns content).1
                  (csvColumns content).2).filter
                  (fun o => detectIntent toLowerCase o.keyword = "Transactional")
              Commercial :=
                (csvKeywordObjects toLowerCase (csvColumns content).1
                  (csvColumns content).2).filter
                  (fun o => detectIntent toLowerCase o.keyword = "Commercial")
              Navigational :=
                (csvKeywordObjects toLowerCase (csvColumns content).1
                  (csvColumns content).2).filter
                  (fun o => detectIntent toLowerCase o.keyword = "Navigational") }
        allKeywords :=
          csvKeywordObjects toLowerCase (csvColumns content).1 (csvColumns content).2 } := by
  have hpush := forEachPush_detectIntent toLowerCase
    (csvKeywordObjects toLowerCase (csvColumns content).1 (csvColumns content).2)
    (mapWithIndex_intent toLowerCase _ _ 0)
  simp only [processCsv, hpush]

theorem csvKeywordObjects_eq_zipWith (toLowerCase : String → String) (ks : List String)
    (vs : List JSNumber) (h : vs.length = ks.length) :
    csvKeywordObjects toLowerCase ks vs =
      List.zipWith
        (fun k v => ({ keyword := k, volume := v, intent := detectIntent toLowerCase k } :
          KeywordObject)) ks vs :=
  keywordObjects_eq_zipWith toLowerCase ks vs h

/-! ## Claims on the handlers -/

/-- Claim C6: on a non-empty keyword list `/api/process-keywords` answers with
`totalKeywords` equal to the number of keywords, each `intentDistribution` entry equal to
the size of the bucket of that label, and four bucket sizes that add up to
`totalKeywords`. -/
theorem processKeywords_counts (toLowerCase : String → String) (body : RequestBody)
    (keywords : List String) (hk : body.keywords = some keywords) (hne : keywords ≠ []) :
    ∃ p, processKeywords toLowerCase body = .success p ∧
      p.stats.totalKeywords = keywords.length ∧
      p.stats.intentDistribution.Informational = p.keywordsByIntent.Informational.length ∧
      p.stats.intentDistribution.Transactional = p.keywordsByIntent.Transactional.length ∧
      p.stats.intentDistribution.Commercial = p.keywordsByIntent.Commercial.length ∧
      p.stats.intentDistribution.Navigational = p.keywordsByIntent.Navigational.length ∧
      p.keywordsByIntent.Informational.length + p.keywordsByIntent.Transactional.length +
        p.keywordsByIntent.Commercial.length + p.keywordsByIntent.Navigational.length =
        p.stats.totalKeywords := by
  refine ⟨_, processKeywords_eq toLowerCase body keywords hk hne, rfl, rfl, rfl, rfl, rfl, ?_⟩
  simp only [mkStats]
  rw [filter_labels_length, keywordObjects, mapWithIndex_length]

/-- At a body with four keywords and no volumes the counts of claim C6 are 4 and
1, 1, 1, 1. -/
theorem processKeywords_counts_witness :
    ∃ p, processKeywords jsToLowerCase
        ⟨some ["best price to buy shoes", "how to buy nike shoes", "nike official site",
          "nike shoes guide"], none⟩ = .success p ∧
      p.stats.totalKeywords = 4 ∧
      p.keywordsByIntent.Informational.length + p.keywordsByIntent.Transactional.length +
        p.keywordsByIntent.Commercial.length + p.keywordsByIntent.Navigational.length = 4 := by
  obtain ⟨p, hp, h1, _, _, _, _, h6⟩ := processKeywords_counts jsToLowerCase
    ⟨some ["best price to buy shoes", "how to buy nike shoes", "nike official site",
      "nike shoes guide"], none⟩ _ rfl (List.cons_ne_nil _ _)
  exact ⟨p, hp, h1, h6.trans h1⟩

/-! ## Claims on `detectIntent`: concrete keywords and case variations -/

/-- The keyword "best price to buy shoes" contains "best" and is Commercial. -/
theorem detectIntent_best_commercial_witness :
    "best".data <:+: (jsToLowerCase "best price to buy shoes").data ∧
      detectIntent jsToLowerCase "best price to buy shoes" = "Commercial" :=
  ⟨(includesChars_iff _ _).mp (by decide),
    detectIntent_best_commercial jsToLowerCase "best price to buy shoes"
      ((includesChars_iff _ _).mp (by decide))⟩

/-- The keyword "how to buy nike shoes" has no "best", contains "buy", and is
Transactional. -/
theorem detectIntent_transactional_witness :
    ¬ "best".data <:+: (jsToLowerCase "how to buy nike shoes").data ∧
      "buy".data <:+: (jsToLowerCase "how to buy nike shoes").data ∧
      detectIntent jsToLowerCase "how to buy nike shoes" = "Transactional" :=
  ⟨fun h => absurd ((includesChars_iff _ _).mpr h) (by decide),
    (includesChars_iff _ _).mp (by decide),
    detectIntent_transactional jsToLowerCase "how to buy nike shoes"
      (fun h => absurd ((includesChars_iff _ _).mpr h) (by decide))
      ⟨"buy", by decide, (includesChars_iff _ _).mp (by decide)⟩⟩

/-- The keyword "nike official site" has neither "best" nor a transactional trigger word,
contains "official", and is Navigational. -/
theorem detectIntent_navigational_witness :
    "official".data <:+: (jsToLowerCase "nike official site").data ∧
      detectIntent jsToLowerCase "nike official site" = "Navigational" :=
  ⟨(includesChars_iff _ _).mp (by decide),
    detectIntent_navigational jsToLowerCase "nike official site"
      (fun h => absurd ((includesChars_iff _ _).mpr h) (by decide))
      (fun w hw h => by
        have hinc := (includesChars_iff _ _).mpr h
        simp only [List.mem_cons, List.mem_singleton, List.not_mem_nil, or_false] at hw
        rcases hw with e | e | e | e | e | e <;> subst e <;> exact absurd hinc (by decide))
      ⟨"official", by decide, (includesChars_iff _ _).mp (by decide)⟩⟩

/-- The keyword "nike shoes guide" of claim C4 is Informational. -/
theorem detectIntent_nike_shoes_guide :
    detectIntent jsToLowerCase "nike shoes guide" = "Informational" := by
  decide

/-- Claim C5 fails for upper-casing: the keyword "be\u017Ft" (with a long s) is
Informational, while its upper-cased form "BEST" is Commercial. -/
theorem detectIntent_upper_case_counterexample :
    jsToUpperCase "be\u017Ft" = "BEST" ∧
      detectIntent jsToLowerCase "be\u017Ft" = "Informational" ∧
      detectIntent jsToLowerCase (jsToUpperCase "be\u017Ft") = "Commercial" ∧
      detectIntent jsToLowerCase (jsToUpperCase "be\u017Ft") ≠
        detectIntent jsToLowerCase "be\u017Ft" := by
  decide

/-- Claim C5, amended: for every lower-casing function, a keyword whose lower-cased text
equals that of `k` gets the label of `k`; and when the lower-casing and upper-casing
functions act on Basic Latin (ASCII) strings as the ASCII case maps, as the built-ins
do, a keyword `k` of ASCII characters gets the same label upper-cased and
lower-cased. -/
theorem detectIntent_case_variation (toLowerCase toUpperCase : String → String) :
    (∀ k variant : String, toLowerCase variant = toLowerCase k →
        detectIntent toLowerCase variant = detectIntent toLowerCase k) ∧
      ((∀ s : String, (∀ c ∈ s.data, c.toNat < 128) →
          toLowerCase s = ⟨s.data.map Char.toLower⟩) →
        (∀ s : String, (∀ c ∈ s.data, c.toNat < 128) →
          toUpperCase s = ⟨s.data.map Char.toUpper⟩) →
        ∀ k : String, (∀ c ∈ k.data, c.toNat < 128) →
          detectIntent toLowerCase (toUpperCase k) = detectIntent toLowerCase k ∧
          detectIntent toLowerCase (toLowerCase k) = detectIntent toLowerCase k) := by
  refine ⟨fun k variant h => detectIntent_congr toLowerCase variant k h, ?_⟩
  intro hlow hup k hk
  have hkl := hlow k hk
  constructor
  · apply detectIntent_congr
    rw [hup k hk, hkl]
    have hu : ∀ c ∈ (String.mk (k.data.map Char.toUpper)).data, c.toNat < 128 := by
      intro c hc
      obtain ⟨d, hd, rfl⟩ := List.mem_map.mp hc
      exact (ascii_toUpper d (hk d hd)).1
    rw [hlow _ hu]
    exact congrArg String.mk (map_toLower_map_toUpper k.data hk)
  · apply detectIntent_congr
    rw [hkl]
    have hl : ∀ c ∈ (String.mk (k.data.map Char.toLower)).data, c.toNat < 128 := by
      intro c hc
      obtain ⟨d, hd, rfl⟩ := List.mem_map.mp hc
      exact (ascii_toLower d (hk d hd)).1
    rw [hlow _ hl]
    exact congrArg String.mk (map_toLower_map_toLower k.data hk)

/-- The amended claim C5 at the tables `jsToLowerCase` and `jsToUpperCase`, which act on
ASCII strings as the ASCII case maps: the ASCII keyword "Best Shoes" keeps its label
upper-cased, lower-cased and as "bEST sHOES". -/
theorem detectIntent_case_variation_witness :
    (∀ c ∈ "Best Shoes".data, c.toNat < 128) ∧
      detectIntent jsToLowerCase (jsToUpperCase "Best Shoes") =
        detectIntent jsToLowerCase "Best Shoes" ∧
      detectIntent jsToLowerCase (jsToLowerCase "Best Shoes") =
        detectIntent jsToLowerCase "Best Shoes" ∧
      detectIntent jsToLowerCase "bEST sHOES" = detectIntent jsToLowerCase "Best Shoes" :=
  ⟨by decide,
    ((detectIntent_case_variation jsToLowerCase jsToUpperCase).2 jsToLowerCase_ascii
      jsToUpperCase_ascii "Best Shoes" (by decide)).1,
    ((detectIntent_case_variation jsToLowerCase jsToUpperCase).2 jsToLowerCase_ascii
      jsToUpperCase_ascii "Best Shoes" (by decide)).2,
    (detectIntent_case_variation jsToLowerCase jsToUpperCase).1 "Best Shoes" "bEST sHOES"
      (by decide)⟩

/-! ## Claims on the buckets and the volumes -/

/-- Claim C7: in both handlers the records are the keywords paired positionally with
their volumes, each bucket is the sub-list, in input order, of the records whose
`detectIntent` label is the bucket's label, and the four buckets together are a
permutation of the records (each occurrence lands in exactly one bucket, nothing else
does). -/
theorem buckets_are_label_filters (toLowerCase : String → String) :
    (∀ (body : RequestBody) (keywords : List String),
      body.keywords = some keywords → keywords ≠ [] →
      ∃ p, processKeywords toLowerCase body = .success p ∧
        p.allKeywords =
          List.zipWith
            (fun k v => ({ keyword := k, volume := v, intent := detectIntent toLowerCase k } :
              KeywordObject))
            keywords (parsedVolumes keywords (body.volumes.getD [])) ∧
        p.keywordsByIntent.Informational =
          p.allKeywords.filter (fun o => detectIntent toLowerCase o.keyword = "Informational") ∧
        p.keywordsByIntent.Transactional =
          p.allKeywords.filter (fun o => detectIntent toLowerCase o.keyword = "Transactional") ∧
        p.keywordsByIntent.Commercial =
          p.allKeywords.filter (fun o => detectIntent toLowerCase o.keyword = "Commercial") ∧
        p.keywordsByIntent.Navigational =
          p.allKeywords.filter (fun o => detectIntent toLowerCase o.keyword = "Navigational") ∧
        List.Perm
          (p.keywordsByIntent.Informational ++ p.keywordsByIntent.Transactional ++
            p.keywordsByIntent.Commercial ++ p.keywordsByIntent.Navigational)
          p.allKeywords) ∧
    (∀ content : String,
      ∃ p, processCsv toLowerCase (some content) = .success p ∧
        p.allKeywords =
          List.zipWith
            (fun k v => ({ keyword := k, volume := v, intent := detectIntent toLowerCase k } :
              KeywordObject))
            (csvColumns content).1 (csvColumns content).2 ∧
        p.keywordsByIntent.Informational =
          p.allKeywords.filter (fun o => detectIntent toLowerCase o.keyword = "Informational") ∧
        p.keywordsByIntent.Transactional =
          p.allKeywords.filter (fun o => detectIntent toLowerCase o.keyword = "Transactional") ∧
        p.keywordsByIntent.Commercial =
          p.allKeywords.filter (fun o => detectIntent toLowerCase o.keyword = "Commercial") ∧
        p.keywordsByIntent.Navigational =
          p.allKeywords.filter (fun o => detectIntent toLowerCase o.keyword = "Navigational") ∧
        List.Perm
          (p.keywordsByIntent.Informational ++ p.keywordsByIntent.Transactional ++
            p.keywordsByIntent.Commercial ++ p.keywordsByIntent.Navigational)
          p.allKeywords) := by
  constructor
  · intro body keywords hk hne
    exact ⟨_, processKeywords_eq toLowerCase body keywords hk hne,
      keywordObjects_eq_zipWith toLowerCase keywords _ (parsedVolumes_length _ _),
      rfl, rfl, rfl, rfl, filter_labels_perm toLowerCase _⟩
  · intro content
    exact ⟨_, processCsv_eq toLowerCase content,
      csvKeywordObjects_eq_zipWith toLowerCase _ _ (csvColumns_length content),
      rfl, rfl, rfl, rfl, filter_labels_perm toLowerCase _⟩

/-- Two keywords with volumes 500 and 300: the Transactional bucket holds the first
record, the Commercial bucket the second, the other two are empty. -/
theorem buckets_are_label_filters_witness :
    ∃ p, processKeywords jsToLowerCase
        ⟨some ["buy shoes", "best running shoes"], some [.number (.finite 500), .number (.finite 300)]⟩ = .success p ∧
      p.allKeywords =
        [⟨"buy shoes", .finite 500, "Transactional"⟩, ⟨"best running shoes", .finite 300, "Commercial"⟩] ∧
      p.keywordsByIntent =
        { Informational := [], Transactional := [⟨"buy shoes", .finite 500, "Transactional"⟩],
          Commercial := [⟨"best running shoes", .finite 300, "Commercial"⟩], Navigational := [] } := by
  obtain ⟨p, hp, h0, h1, h2, h3, h4, _⟩ := (buckets_are_label_filters jsToLowerCase).1
    ⟨some ["buy shoes", "best running shoes"], some [.number (.finite 500), .number (.finite 300)]⟩ _ rfl (List.cons_ne_nil _ _)
  have ha : p.allKeywords =
      [⟨"buy shoes", .finite 500, "Transactional"⟩, ⟨"best running shoes", .finite 300, "Commercial"⟩] := by
    rw [h0]
    decide!
  refine ⟨p, hp, ha, ?_⟩
  rw [ha] at h1 h2 h3 h4
  cases hb : p.keywordsByIntent with
  | mk i t c n =>
    rw [hb] at h1 h2 h3 h4
    simp only at h1 h2 h3 h4
    rw [h1, h2, h3, h4]
    decide!

/-! ## Sums of volumes -/

/-- When the volumes of a list of records are integers, the volumes of its four label
filters are integers too, and both their sum and the sum of their magnitudes are those
of the whole list. -/
theorem bucket_int_sums (toLowerCase : String → String) (objs : List KeywordObject)
    (ints : List Int)
    (h : objs.map (fun o => o.volume) = ints.map (fun (i : Int) => JSNumber.finite (i : ℚ))) :
    ∃ bi bt bc bn : List Int,
      (objs.filter (fun o => detectIntent toLowerCase o.keyword = "Informational")).map
          (fun o => o.volume) = bi.map (fun (i : Int) => JSNumber.finite (i : ℚ)) ∧
      (objs.filter (fun o => detectIntent toLowerCase o.keyword = "Transactional")).map
          (fun o => o.volume) = bt.map (fun (i : Int) => JSNumber.finite (i : ℚ)) ∧
      (objs.filter (fun o => detectIntent toLowerCase o.keyword = "Commercial")).map
          (fun o => o.volume) = bc.map (fun (i : Int) => JSNumber.finite (i : ℚ)) ∧
      (objs.filter (fun o => detectIntent toLowerCase o.keyword = "Navigational")).map
          (fun o => o.volume) = bn.map (fun (i : Int) => JSNumber.finite (i : ℚ)) ∧
      bi.sum + bt.sum + bc.sum + bn.sum = ints.sum ∧
      (bi.map Int.natAbs).sum + (bt.map Int.natAbs).sum + (bc.map Int.natAbs).sum +
        (bn.map Int.natAbs).sum = (ints.map Int.natAbs).sum := by
  let intOf : KeywordObject → Int := fun o =>
    match o.volume with
    | .finite q => q.num
    | _ => 0
  have hint : ∀ o ∈ objs, o.volume = JSNumber.finite ((intOf o : Int) : ℚ) := by
    intro o ho
    have hm : o.volume ∈ objs.map (fun o => o.volume) := List.mem_map_of_mem _ ho
    rw [h] at hm
    obtain ⟨i, _, hi⟩ := List.mem_map.mp hm
    have hq : intOf o = i := by
      simp only [intOf, ← hi, Rat.num_intCast]
    rw [hq, ← hi]
  have hsub : ∀ l : List KeywordObject, (∀ o ∈ l, o ∈ objs) →
      l.map (fun o => o.volume) =
        (l.map intOf).map (fun (i : Int) => JSNumber.finite (i : ℚ)) := by
    intro l hl
    rw [List.map_map]
    apply List.map_congr_left
    intro o ho
    exact hint o (hl o ho)
  have hall : objs.map intOf = ints := by
    have h1 := hsub objs (fun o ho => ho)
    rw [h] at h1
    have hinj : Function.Injective (fun (i : Int) => JSNumber.finite (i : ℚ)) := by
      intro a b hab
      simp only [JSNumber.finite.injEq] at hab
      exact_mod_cast hab
    exact (List.map_injective_iff.mpr hinj h1).symm
  have hperm := filter_labels_perm toLowerCase objs
  refine ⟨_, _, _, _, hsub _ (fun o ho => (List.mem_filter.mp ho).1),
    hsub _ (fun o ho => (List.mem_filter.mp ho).1),
    hsub _ (fun o ho => (List.mem_filter.mp ho).1),
    hsub _ (fun o ho => (List.mem_filter.mp ho).1), ?_, ?_⟩
  · have hs := (hperm.map intOf).sum_eq
    simp only [List.map_append, List.sum_append] at hs
    rw [hs, hall]
  · have hs := ((hperm.map intOf).map Int.natAbs).sum_eq
    simp only [List.map_append, List.sum_append] at hs
    rw [hs, hall]

theorem natAbs_sum_le (l : List Int) : l.sum.natAbs ≤ (l.map Int.natAbs).sum := by
  induction l with
  | nil => simp
  | cons a l ih =>
    simp only [List.sum_cons, List.map_cons]
    have := Int.natAbs_add_le a l.sum
    omega

/-- Four lists of integers whose magnitudes add up to at most `2 ^ 53`: adding the four
double sums gives the exact total. -/
theorem four_sums_exact (bi bt bc bn : List Int)
    (h : (bi.map Int.natAbs).sum + (bt.map Int.natAbs).sum + (bc.map Int.natAbs).sum +
      (bn.map Int.natAbs).sum ≤ 2 ^ 53) :
    jsAdd
      (jsAdd
        (jsAdd (sumReduce (bi.map (fun (i : Int) => JSNumber.finite (i : ℚ))))
          (sumReduce (bt.map (fun (i : Int) => JSNumber.finite (i : ℚ)))))
        (sumReduce (bc.map (fun (i : Int) => JSNumber.finite (i : ℚ)))))
      (sumReduce (bn.map (fun (i : Int) => JSNumber.finite (i : ℚ)))) =
      .finite ((bi.sum + bt.sum + bc.sum + bn.sum : Int) : ℚ) := by
  have hi := natAbs_sum_le bi
  have ht := natAbs_sum_le bt
  have hc := natAbs_sum_le bc
  have hn := natAbs_sum_le bn
  rw [sumReduce_int bi (by omega), sumReduce_int bt (by omega), sumReduce_int bc (by omega),
    sumReduce_int bn (by omega)]
  have h1 := Int.natAbs_add_le bi.sum bt.sum
  have h2 := Int.natAbs_add_le (bi.sum + bt.sum) bc.sum
  have h3 := Int.natAbs_add_le (bi.sum + bt.sum + bc.sum) bn.sum
  simp only [jsAdd]
  rw [← Int.cast_add, roundDouble_intCast _ (by omega)]
  simp only [jsAdd]
  rw [← Int.cast_add, roundDouble_intCast _ (by omega)]
  simp only [jsAdd]
  rw [← Int.cast_add, roundDouble_intCast _ (by omega)]

/-! ## Claims on the volumes -/

/-- Claim C8 fails for large volumes: with the volumes 9007199254740992 and 1 the records
carry both values, whose exact sum is 9007199254740993, and `totalVolume` is
9007199254740992, the sum rounded to a double. -/
theorem totalVolume_rounds_counterexample :
    processKeywords jsToLowerCase
        ⟨some ["nike guide", "buy shoes"],
          some [.number (.finite 9007199254740992), .number (.finite 1)]⟩ = .success
      { keywordsByIntent :=
          { Informational := [⟨"nike guide", .finite 9007199254740992, "Informational"⟩]
            Transactional := [⟨"buy shoes", .finite 1, "Transactional"⟩]
            Commercial := []
            Navigational := [] }
        stats :=
          { totalKeywords := 2, totalClusters := 2, totalVolume := .finite 9007199254740992,
            intentDistribution :=
              { Informational := 1, Transactional := 1, Commercial := 0, Navigational := 0 } }
        allKeywords :=
          [⟨"nike guide", .finite 9007199254740992, "Informational"⟩,
            ⟨"buy shoes", .finite 1, "Transactional"⟩] } ∧
      (9007199254740992 : ℚ) + 1 ≠ 9007199254740992 := by
  constructor
  · decide!
  · norm_num

/-- Claim C8, amended: on a non-empty keyword list, a `volumes` array of the same length
gives record `i` the coerced volume `Number(v) || 0` of element `i` and makes
`totalVolume` the left-to-right sum, in double arithmetic, of the coerced volumes; that
sum is the exact sum when the coerced volumes are integers whose magnitudes add up to at
most `2 ^ 53`.  A `volumes` array of another length, or none, gives every record the
volume 0 and makes `totalVolume` 0. -/
theorem processKeywords_volumes (toLowerCase : String → String) (body : RequestBody)
    (keywords : List String) (hk : body.keywords = some keywords) (hne : keywords ≠ []) :
    ∃ p, processKeywords toLowerCase body = .success p ∧
      p.allKeywords.map (fun o => o.keyword) = keywords ∧
      (∀ volumes : List JsonValue, body.volumes = some volumes →
        volumes.length = keywords.length →
          p.allKeywords.map (fun o => o.volume) =
            volumes.map (fun v => orZero (toNumber v)) ∧
          p.stats.totalVolume =
            (volumes.map (fun v => orZero (toNumber v))).foldl (fun a b => jsAdd a b)
              (.finite 0) ∧
          ∀ ints : List Int,
            volumes.map (fun v => orZero (toNumber v)) =
                ints.map (fun (i : Int) => JSNumber.finite (i : ℚ)) →
              (ints.map Int.natAbs).sum ≤ 2 ^ 53 →
              p.stats.totalVolume = .finite ((ints.sum : Int) : ℚ)) ∧
      ((body.volumes.getD []).length ≠ keywords.length →
          (∀ o ∈ p.allKeywords, o.volume = .finite 0) ∧ p.stats.totalVolume = .finite 0) := by
  have hobjs := keywordObjects_eq_zipWith toLowerCase keywords
    (parsedVolumes keywords (body.volumes.getD [])) (parsedVolumes_length _ _)
  have hvol := zipWith_map_volume toLowerCase keywords
    (parsedVolumes keywords (body.volumes.getD [])) (parsedVolumes_length _ _)
  have hkw := zipWith_map_keyword toLowerCase keywords
    (parsedVolumes keywords (body.volumes.getD [])) (parsedVolumes_length _ _)
  refine ⟨_, processKeywords_eq toLowerCase body keywords hk hne, ?_, ?_, ?_⟩
  · simp only [hobjs, hkw]
  · intro volumes hv hlen
    have hpv : parsedVolumes keywords (body.volumes.getD []) =
        volumes.map (fun v => orZero (toNumber v)) := by
      simp only [hv, Option.getD_some, parsedVolumes, hlen, if_true]
      rfl
    refine ⟨?_, ?_, ?_⟩
    · rw [hobjs, hvol, hpv]
    · simp only [mkStats, sumReduce, hpv]
    · intro ints hints hbound
      simp only [mkStats, hpv, hints]
      exact sumReduce_int ints hbound
  · intro hlen
    have hpv : parsedVolumes keywords (body.volumes.getD []) =
        List.replicate keywords.length (.finite 0) := by
      simp [parsedVolumes, hlen]
    constructor
    · intro o ho
      have hmem : o.volume ∈ List.replicate keywords.length (JSNumber.finite 0) := by
        rw [← hpv, ← hvol, ← hobjs]
        exact List.mem_map_of_mem (fun o => o.volume) ho
      exact (List.mem_replicate.mp hmem).2
    · simp only [mkStats, hpv]
      have hz : List.replicate keywords.length (JSNumber.finite 0) =
          (List.replicate keywords.length (0 : Int)).map
            (fun (i : Int) => JSNumber.finite (i : ℚ)) := by
        simp
      rw [hz, sumReduce_int _ (by simp)]
      simp

/-- The amended claim C8 at four keywords: the text "12abc" gives 0, the fraction 1.5 is
kept, the text "7" gives 7 and `null` gives 0; with the integer volumes 500 and 300 the
total is the exact sum 800. -/
theorem processKeywords_volumes_witness :
    (∃ p, processKeywords jsToLowerCase
        ⟨some ["buy shoes", "best running shoes", "nike guide", "nike site"],
          some [.string "12abc", .number (.finite (3 / 2)), .string "7", .null]⟩ =
          .success p ∧
      p.allKeywords.map (fun o => o.volume) =
        [.finite 0, .finite (3 / 2), .finite 7, .finite 0]) ∧
    ∃ p, processKeywords jsToLowerCase
        ⟨some ["buy shoes", "best running shoes"],
          some [.number (.finite 500), .number (.finite 300)]⟩ = .success p ∧
      p.allKeywords.map (fun o => o.volume) = [.finite 500, .finite 300] ∧
      p.stats.totalVolume = .finite 800 := by
  constructor
  · obtain ⟨p, hp, _, h, _⟩ := processKeywords_volumes jsToLowerCase
      ⟨some ["buy shoes", "best running shoes", "nike guide", "nike site"],
        some [.string "12abc", .number (.finite (3 / 2)), .string "7", .null]⟩ _ rfl
      (List.cons_ne_nil _ _)
    obtain ⟨h1, _, _⟩ := h _ rfl rfl
    exact ⟨p, hp, h1.trans (by decide!)⟩
  · obtain ⟨p, hp, _, h, _⟩ := processKeywords_volumes jsToLowerCase
      ⟨some ["buy shoes", "best running shoes"],
        some [.number (.finite 500), .number (.finite 300)]⟩ _ rfl (List.cons_ne_nil _ _)
    obtain ⟨h1, _, h3⟩ := h _ rfl rfl
    refine ⟨p, hp, h1.trans (by decide!), ?_⟩
    have h800 := h3 [500, 300] (by decide!) (by decide)
    rw [h800]
    norm_num

/-- Claim C9 fails for large volumes, in both handlers: with the volumes 9007199254740992,
1 and 1 the Informational bucket holds 9007199254740992 and the Transactional bucket 1
and 1, so the bucket volumes add up to 9007199254740994, exactly and in double
arithmetic, while `totalVolume` is 9007199254740992. -/
theorem bucket_volumes_sum_counterexample :
    processKeywords jsToLowerCase
        ⟨some ["nike guide", "buy shoes", "shop shoes"],
          some [.number (.finite 9007199254740992), .number (.finite 1),
            .number (.finite 1)]⟩ = .success
      { keywordsByIntent :=
          { Informational := [⟨"nike guide", .finite 9007199254740992, "Informational"⟩]
            Transactional :=
              [⟨"buy shoes", .finite 1, "Transactional"⟩,
                ⟨"shop shoes", .finite 1, "Transactional"⟩]
            Commercial := []
            Navigational := [] }
        stats :=
          { totalKeywords := 3, totalClusters := 3, totalVolume := .finite 9007199254740992,
            intentDistribution :=
              { Informational := 1, Transactional := 2, Commercial := 0, Navigational := 0 } }
        allKeywords :=
          [⟨"nike guide", .finite 9007199254740992, "Informational"⟩,
            ⟨"buy shoes", .finite 1, "Transactional"⟩,
            ⟨"shop shoes", .finite 1, "Transactional"⟩] } ∧
      processCsv jsToLowerCase
          (some "nike guide,9007199254740992\nbuy shoes,1\nshop shoes,1") =
        processKeywords jsToLowerCase
          ⟨some ["nike guide", "buy shoes", "shop shoes"],
            some [.number (.finite 9007199254740992), .number (.finite 1),
              .number (.finite 1)]⟩ ∧
      jsAdd (jsAdd (jsAdd (sumReduce [.finite 9007199254740992])
          (sumReduce [.finite 1, .finite 1])) (sumReduce [])) (sumReduce []) =
        .finite 9007199254740994 ∧
      (9007199254740992 : ℚ) + (1 + 1) ≠ 9007199254740992 := by
  refine ⟨by decide!, by decide!, by decide!, by norm_num⟩

/-- Claim C9, amended: in both handlers, when the volumes put on the records are integers
whose magnitudes add up to at most `2 ^ 53`, the volumes of each bucket are integers,
the sum over the four buckets of these integers is the sum of all volumes, and
`totalVolume` is that sum; adding the four bucket sums in double arithmetic gives
`totalVolume` too. -/
theorem bucket_volumes_sum (toLowerCase : String → String) :
    (∀ (body : RequestBody) (keywords : List String) (ints : List Int),
      body.keywords = some keywords → keywords ≠ [] →
      parsedVolumes keywords (body.volumes.getD []) =
        ints.map (fun (i : Int) => JSNumber.finite (i : ℚ)) →
      (ints.map Int.natAbs).sum ≤ 2 ^ 53 →
      ∃ p, processKeywords toLowerCase body = .success p ∧
        p.allKeywords.map (fun o => o.volume) =
          ints.map (fun (i : Int) => JSNumber.finite (i : ℚ)) ∧
        p.stats.totalVolume = .finite ((ints.sum : Int) : ℚ) ∧
        (∃ bi bt bc bn : List Int,
          p.keywordsByIntent.Informational.map (fun o => o.volume) =
            bi.map (fun (i : Int) => JSNumber.finite (i : ℚ)) ∧
          p.keywordsByIntent.Transactional.map (fun o => o.volume) =
            bt.map (fun (i : Int) => JSNumber.finite (i : ℚ)) ∧
          p.keywordsByIntent.Commercial.map (fun o => o.volume) =
            bc.map (fun (i : Int) => JSNumber.finite (i : ℚ)) ∧
          p.keywordsByIntent.Navigational.map (fun o => o.volume) =
            bn.map (fun (i : Int) => JSNumber.finite (i : ℚ)) ∧
          bi.sum + bt.sum + bc.sum + bn.sum = ints.sum) ∧
        jsAdd
          (jsAdd
            (jsAdd (sumReduce (p.keywordsByIntent.Informational.map (fun o => o.volume)))
              (sumReduce (p.keywordsByIntent.Transactional.map (fun o => o.volume))))
            (sumReduce (p.keywordsByIntent.Commercial.map (fun o => o.volume))))
          (sumReduce (p.keywordsByIntent.Navigational.map (fun o => o.volume))) =
          p.stats.totalVolume) ∧
    (∀ (content : String) (ints : List Int),
      (csvColumns content).2 = ints.map (fun (i : Int) => JSNumber.finite (i : ℚ)) →
      (ints.map Int.natAbs).sum ≤ 2 ^ 53 →
      ∃ p, processCsv toLowerCase (some content) = .success p ∧
        p.allKeywords.map (fun o => o.volume) =
          ints.map (fun (i : Int) => JSNumber.finite (i : ℚ)) ∧
        p.stats.totalVolume = .finite ((ints.sum : Int) : ℚ) ∧
        (∃ bi bt bc bn : List Int,
          p.keywordsByIntent.Informational.map (fun o => o.volume) =
            bi.map (fun (i : Int) => JSNumber.finite (i : ℚ)) ∧
          p.keywordsByIntent.Transactional.map (fun o => o.volume) =
            bt.map (fun (i : Int) => JSNumber.finite (i : ℚ)) ∧
          p.keywordsByIntent.Commercial.map (fun o => o.volume) =
            bc.map (fun (i : Int) => JSNumber.finite (i : ℚ)) ∧
          p.keywordsByIntent.Navigational.map (fun o => o.volume) =
            bn.map (fun (i : Int) => JSNumber.finite (i : ℚ)) ∧
          bi.sum + bt.sum + bc.sum + bn.sum = ints.sum) ∧
        jsAdd
          (jsAdd
            (jsAdd (sumReduce (p.keywordsByIntent.Informational.map (fun o => o.volume)))
              (sumReduce (p.keywordsByIntent.Transactional.map (fun o => o.volume))))
            (sumReduce (p.keywordsByIntent.Commercial.map (fun o => o.volume))))
          (sumReduce (p.keywordsByIntent.Navigational.map (fun o => o.volume))) =
          p.stats.totalVolume) := by
  constructor
  · intro body keywords ints hk hne hints hbound
    have hobjs : (keywordObjects toLowerCase keywords
        (parsedVolumes keywords (body.volumes.getD []))).map (fun o => o.volume) =
        ints.map (fun (i : Int) => JSNumber.finite (i : ℚ)) := by
      rw [keywordObjects_eq_zipWith toLowerCase keywords _ (parsedVolumes_length _ _),
        zipWith_map_volume toLowerCase keywords _ (parsedVolumes_length _ _), hints]
    obtain ⟨bi, bt, bc, bn, h1, h2, h3, h4, hsum, habs⟩ :=
      bucket_int_sums toLowerCase _ ints hobjs
    have htotal : sumReduce (parsedVolumes keywords (body.volumes.getD [])) =
        .finite ((ints.sum : Int) : ℚ) := by
      rw [hints]
      exact sumReduce_int ints hbound
    refine ⟨_, processKeywords_eq toLowerCase body keywords hk hne, hobjs, ?_,
      ⟨bi, bt, bc, bn, h1, h2, h3, h4, hsum⟩, ?_⟩
    · simp only [mkStats, htotal]
    · simp only [mkStats, htotal]
      rw [h1, h2, h3, h4, four_sums_exact bi bt bc bn (by omega), hsum]
  · intro content ints hints hbound
    have hobjs : (csvKeywordObjects toLowerCase (csvColumns content).1
        (csvColumns content).2).map (fun o => o.volume) =
        ints.map (fun (i : Int) => JSNumber.finite (i : ℚ)) := by
      rw [csvKeywordObjects_eq_zipWith toLowerCase _ _ (csvColumns_length content),
        zipWith_map_volume toLowerCase _ _ (csvColumns_length content), hints]
    obtain ⟨bi, bt, bc, bn, h1, h2, h3, h4, hsum, habs⟩ :=
      bucket_int_sums toLowerCase _ ints hobjs
    have htotal : sumReduce (csvColumns content).2 = .finite ((ints.sum : Int) : ℚ) := by
      rw [hints]
      exact sumReduce_int ints hbound
    refine ⟨_, processCsv_eq toLowerCase content, hobjs, ?_,
      ⟨bi, bt, bc, bn, h1, h2, h3, h4, hsum⟩, ?_⟩
    · simp only [mkStats, htotal]
    · simp only [mkStats, htotal]
      rw [h1, h2, h3, h4, four_sums_exact bi bt bc bn (by omega), hsum]

/-- The amended claim C9 at three keywords with the volumes 500, 300 and 7, one for each
of three buckets, sent as a request body and as CSV text: the total is 807 and so is
the sum of the bucket sums. -/
theorem bucket_volumes_sum_witness :
    (∃ p, processKeywords jsToLowerCase
        ⟨some ["buy shoes", "best running shoes", "nike shoes guide"],
          some [.number (.finite 500), .number (.finite 300), .number (.finite 7)]⟩ =
          .success p ∧
      p.stats.totalVolume = .finite 807 ∧
      jsAdd
        (jsAdd
          (jsAdd (sumReduce (p.keywordsByIntent.Informational.map (fun o => o.volume)))
            (sumReduce (p.keywordsByIntent.Transactional.map (fun o => o.volume))))
          (sumReduce (p.keywordsByIntent.Commercial.map (fun o => o.volume))))
        (sumReduce (p.keywordsByIntent.Navigational.map (fun o => o.volume))) =
        p.stats.totalVolume) ∧
    ∃ p, processCsv jsToLowerCase
        (some "buy shoes,500\nbest running shoes,300\nnike shoes guide,7") = .success p ∧
      p.stats.totalVolume = .finite 807 ∧
      jsAdd
        (jsAdd
          (jsAdd (sumReduce (p.keywordsByIntent.Informational.map (fun o => o.volume)))
            (sumReduce (p.keywordsByIntent.Transactional.map (fun o => o.volume))))
          (sumReduce (p.keywordsByIntent.Commercial.map (fun o => o.volume))))
        (sumReduce (p.keywordsByIntent.Navigational.map (fun o => o.volume))) =
        p.stats.totalVolume := by
  constructor
  · obtain ⟨p, hp, _, ht, _, hs⟩ := (bucket_volumes_sum jsToLowerCase).1
      ⟨some ["buy shoes", "best running shoes", "nike shoes guide"],
        some [.number (.finite 500), .number (.finite 300), .number (.finite 7)]⟩
      _ [500, 300, 7] rfl (List.cons_ne_nil _ _) (by decide!) (by decide)
    refine ⟨p, hp, ?_, hs⟩
    rw [ht]
    norm_num
  · obtain ⟨p, hp, _, ht, _, hs⟩ := (bucket_volumes_sum jsToLowerCase).2
      "buy shoes,500\nbest running shoes,300\nnike shoes guide,7" [500, 300, 7]
      (by decide!) (by decide)
    refine ⟨p, hp, ?_, hs⟩
    rw [ht]
    norm_num

/-! ## Validation and totality -/

/-- Claim C11: with an absent or empty keyword list `/api/process-keywords` answers with
the status 400 error "No keywords provided", a response without buckets, stats or
records; on a non-empty list it answers with a success body, never with that error. -/
theorem processKeywords_validation (toLowerCase : String → String) (body : RequestBody) :
    ((body.keywords = none ∨ body.keywords = some []) →
      processKeywords toLowerCase body = .failure 400 "No keywords provided") ∧
    (∀ keywords : List String, body.keywords = some keywords → keywords ≠ [] →
      (∃ p, processKeywords toLowerCase body = .success p) ∧
      ∀ status : Nat,
        processKeywords toLowerCase body ≠ .failure status "No keywords provided") := by
  constructor
  · rintro (h | h) <;> simp [processKeywords, h]
  · intro keywords hk hne
    have h := processKeywords_eq toLowerCase body keywords hk hne
    constructor
    · exact ⟨_, h⟩
    · intro status hs
      rw [h] at hs
      exact Response.noConfusion hs

/-- Claim C11 at the empty list, at an absent list and at a list of one keyword. -/
theorem processKeywords_validation_witness :
    processKeywords jsToLowerCase ⟨some [], some [.number (.finite 5)]⟩ = .failure 400 "No keywords provided" ∧
      processKeywords jsToLowerCase ⟨none, none⟩ = .failure 400 "No keywords provided" ∧
      (∃ p, processKeywords jsToLowerCase ⟨some ["nike shoes guide"], none⟩ = .success p) :=
  ⟨(processKeywords_validation jsToLowerCase ⟨some [], some [.number (.finite 5)]⟩).1 (Or.inr rfl),
    (processKeywords_validation jsToLowerCase ⟨none, none⟩).1 (Or.inl rfl),
    ((processKeywords_validation jsToLowerCase ⟨some ["nike shoes guide"], none⟩).2
      ["nike shoes guide"] rfl (List.cons_ne_nil _ _)).1⟩

/-- Claim C12 does not hold on the code: `/api/process-csv` answers every uploaded text
with a success body, and for a text whose lines are all dropped (a header alone, numeric
first fields alone, blank lines alone) the body has four empty buckets and zero counts
where the claim asks for a validation error. -/
theorem processCsv_empty_is_success :
    (∀ (toLowerCase : String → String) (content : String),
      ∃ p, processCsv toLowerCase (some content) = .success p) ∧
    processCsv jsToLowerCase (some "keyword,volume") = .success
      { keywordsByIntent := emptyBuckets
        stats :=
          { totalKeywords := 0, totalClusters := 0, totalVolume := .finite 0,
            intentDistribution :=
              { Informational := 0, Transactional := 0, Commercial := 0, Navigational := 0 } }
        allKeywords := [] } ∧
    processCsv jsToLowerCase (some "123,999\n4.5e3,7") = .success
      { keywordsByIntent := emptyBuckets
        stats :=
          { totalKeywords := 0, totalClusters := 0, totalVolume := .finite 0,
            intentDistribution :=
              { Informational := 0, Transactional := 0, Commercial := 0, Navigational := 0 } }
        allKeywords := [] } ∧
    processCsv jsToLowerCase (some " \n\n  \n") = .success
      { keywordsByIntent := emptyBuckets
        stats :=
          { totalKeywords := 0, totalClusters := 0, totalVolume := .finite 0,
            intentDistribution :=
              { Informational := 0, Transactional := 0, Commercial := 0, Navigational := 0 } }
        allKeywords := [] } := by
  refine ⟨fun toLowerCase content => ⟨_, processCsv_eq toLowerCase content⟩, ?_, ?_, ?_⟩ <;>
    decide!

/-- Claim C15: `detectIntent` returns one of the four labels on every string, each of
the four labels is returned for some keyword, and so on every list of (keyword, volume)
records each push finds its bucket, the loop ends without a throw, and neither handler
reaches its status 500 answer. -/
theorem classification_cannot_fail (toLowerCase : String → String) :
    (∀ keyword : String,
      detectIntent toLowerCase keyword ∈
        ["Informational", "Transactional", "Commercial", "Navigational"]) ∧
    (detectIntent jsToLowerCase "nike shoes guide" = "Informational" ∧
      detectIntent jsToLowerCase "how to buy nike shoes" = "Transactional" ∧
      detectIntent jsToLowerCase "best price to buy shoes" = "Commercial" ∧
      detectIntent jsToLowerCase "nike official site" = "Navigational") ∧
    (∀ (b : IntentBuckets) (keyword : String) (volume : JSNumber),
      ∃ b1, pushByIntent b
        { keyword := keyword, volume := volume, intent := detectIntent toLowerCase keyword } =
          .ok b1) ∧
    (∀ records : List (String × JSNumber),
      ∃ b, forEachPush
        (records.map (fun r =>
          ({ keyword := r.1, volume := r.2, intent := detectIntent toLowerCase r.1 } :
            KeywordObject)))
        emptyBuckets = .ok b) ∧
    (∀ (body : RequestBody) (e : String),
      processKeywords toLowerCase body ≠ .failure 500 e) ∧
    (∀ (file : Option String) (e : String),
      processCsv toLowerCase file ≠ .failure 500 e) := by
  refine ⟨?_, by decide, ?_, ?_, ?_, ?_⟩
  · intro keyword
    simp only [List.mem_cons, List.mem_singleton, List.not_mem_nil, or_false]
    exact detectIntent_label toLowerCase keyword
  · intro b keyword volume
    rcases detectIntent_label toLowerCase keyword with h | h | h | h <;>
      simp [pushByIntent, h]
  · intro records
    refine ⟨_, forEachPush_detectIntent toLowerCase _ ?_⟩
    intro o ho
    obtain ⟨r, _, rfl⟩ := List.mem_map.mp ho
    rfl
  · intro body e h
    cases hk : body.keywords with
    | none =>
      simp [processKeywords, hk] at h
    | some keywords =>
      by_cases hne : keywords = []
      · simp [processKeywords, hk, hne] at h
      · rw [processKeywords_eq toLowerCase body keywords hk hne] at h
        exact Response.noConfusion h
  · intro file e h
    cases file with
    | none => simp [processCsv] at h
    | some content =>
      rw [processCsv_eq toLowerCase content] at h
      exact Response.noConfusion h

/-! ## The records of the CSV path -/

theorem testKeywordRegex_eq (line : List Char) :
    testKeywordRegex line = decide ("keyword".data <:+: line.map Char.toLower) := by
  unfold testKeywordRegex
  rw [Bool.eq_iff_iff, includesChars_iff, decide_eq_true_iff]

/-- One step of the loop over the lines keeps or drops the line as the specification
says. -/
theorem csvRow_eq (acc : List String × List JSNumber) (line : List Char) (index : Nat) :
    csvRow acc line index =
      if keptLineSpec index line = true then
        (acc.1 ++ [String.mk (firstField line)], acc.2 ++ [parseIntOrZero (secondField line)])
      else acc := by
  unfold csvRow keptLineSpec firstField secondField
  rw [testKeywordRegex_eq]
  cases hs : splitChars ',' line with
  | nil =>
    have ht : trimChars [] = [] := rfl
    simp [ht]
  | cons piece pieces =>
    by_cases h0 : index = 0 <;>
    by_cases hk : "keyword".data <:+: line.map Char.toLower <;>
    by_cases he : (trimChars piece).isEmpty = true <;>
    by_cases hn : isNaNString (trimChars piece) = true <;>
    simp [h0, hk, he, hn, List.head?_map]

theorem forEachRow_eq (lines : List (List Char)) (i : Nat) (acc : List String × List JSNumber) :
    forEachRow lines i acc =
      (acc.1 ++ ((lines.enumFrom i).filter (fun il => keptLineSpec il.1 il.2)).map
          (fun il => String.mk (firstField il.2)),
        acc.2 ++ ((lines.enumFrom i).filter (fun il => keptLineSpec il.1 il.2)).map
          (fun il => parseIntOrZero (secondField il.2))) := by
  induction lines generalizing i acc with
  | nil => simp [forEachRow]
  | cons line lines ih =>
    rw [forEachRow, ih, csvRow_eq]
    by_cases hk : keptLineSpec i line = true
    · simp [hk, List.filter_cons]
    · simp [hk, List.filter_cons]

theorem csvColumns_eq_spec (content : String) :
    csvColumns content =
      ((csvRecordsSpec content).map Prod.fst, (csvRecordsSpec content).map Prod.snd) := by
  unfold csvColumns csvRecordsSpec
  rw [forEachRow_eq]
  simp [List.enum, List.map_map, Function.comp_def]

theorem zipWith_map_fst_snd {β : Type} (f : String → JSNumber → β)
    (l : List (String × JSNumber)) :
    List.zipWith f (l.map Prod.fst) (l.map Prod.snd) = l.map (fun r => f r.1 r.2) := by
  induction l with
  | nil => rfl
  | cons r l ih => simp [ih]

theorem zip_map_fst_snd (l : List (String × JSNumber)) :
    (l.map Prod.fst).zip (l.map Prod.snd) = l := by
  induction l with
  | nil => rfl
  | cons r l ih => simp [ih]

/-- Claim C13: for every uploaded text the records of `/api/process-csv` are, in order,
the kept lines of the specification (`csvRecordsSpec`), each with the label of its
keyword; on the text of the specification's example they are ("buy shoes", 500,
Transactional) and ("best running shoes", 300, Commercial). -/
theorem processCsv_records :
    (∀ (toLowerCase : String → String) (content : String),
      (csvColumns content).1.zip (csvColumns content).2 = csvRecordsSpec content ∧
      ∃ p, processCsv toLowerCase (some content) = .success p ∧
        p.allKeywords =
          (csvRecordsSpec content).map
            (fun r => ({ keyword := r.1, volume := r.2,
                         intent := detectIntent toLowerCase r.1 } : KeywordObject))) ∧
    csvRecordsSpec "keyword,volume\nbuy shoes,500\n123,999\nbest running shoes,300" =
      [("buy shoes", .finite 500), ("best running shoes", .finite 300)] ∧
    ∃ p, processCsv jsToLowerCase
        (some "keyword,volume\nbuy shoes,500\n123,999\nbest running shoes,300") = .success p ∧
      p.allKeywords =
        [⟨"buy shoes", .finite 500, "Transactional"⟩,
          ⟨"best running shoes", .finite 300, "Commercial"⟩] := by
  have general : ∀ (toLowerCase : String → String) (content : String),
      (csvColumns content).1.zip (csvColumns content).2 = csvRecordsSpec content ∧
      ∃ p, processCsv toLowerCase (some content) = .success p ∧
        p.allKeywords =
          (csvRecordsSpec content).map
            (fun r => ({ keyword := r.1, volume := r.2,
                         intent := detectIntent toLowerCase r.1 } : KeywordObject)) := by
    intro toLowerCase content
    constructor
    · rw [csvColumns_eq_spec]
      exact zip_map_fst_snd _
    · refine ⟨_, processCsv_eq toLowerCase content, ?_⟩
      simp only
      rw [csvKeywordObjects_eq_zipWith toLowerCase _ _ (csvColumns_length content),
        csvColumns_eq_spec]
      exact zipWith_map_fst_snd _ _
  refine ⟨general, by decide!, ?_⟩
  obtain ⟨_, p, hp, ha⟩ :=
    general jsToLowerCase "keyword,volume\nbuy shoes,500\n123,999\nbest running shoes,300"
  refine ⟨p, hp, ?_⟩
  rw [ha]
  decide!

/-! ## The two handlers build the same response -/

/-- The coercion `Number(v) || 0` leaves an array of numbers without `NaN` as it is. -/
theorem parsedVolumes_eq_self (keywords : List String) (volumes : List JSNumber)
    (hnan : ∀ v ∈ volumes, v ≠ .nan) (h : volumes.length = keywords.length) :
    parsedVolumes keywords (volumes.map JsonValue.number) = volumes := by
  simp only [parsedVolumes, List.length_map, h, if_true, List.map_map]
  conv_rhs => rw [← List.map_id volumes]
  apply List.map_congr_left
  intro v hv
  exact orZero_of_ne_nan v (hnan v hv)

theorem processCsv_eq_csvResponse (toLowerCase : String → String) (content : String) :
    processCsv toLowerCase (some content) =
      csvResponse toLowerCase (csvColumns content).1 (csvColumns content).2 :=
  rfl

theorem csvColumns_ne_nan (content : String) : ∀ v ∈ (csvColumns content).2, v ≠ .nan := by
  intro v hv
  rw [csvColumns_eq_spec] at hv
  simp only [csvRecordsSpec, List.map_map, List.mem_map, Function.comp_apply] at hv
  obtain ⟨il, _, rfl⟩ := hv
  exact parseIntOrZero_ne_nan _

/-- Claim C17: for every non-empty list of (keyword, volume) pairs with integer volumes, and
more generally with volumes that are numbers other than `NaN`, `/api/process-keywords` on
the keyword list and the volume list answers with exactly the response that the second
half of `/api/process-csv` builds from the same two arrays: the same buckets, stats and
records.  The first half of `/api/process-csv` only fills the two arrays, and never
with `NaN`. -/
theorem processKeywords_eq_csvResponse (toLowerCase : String → String) :
    (∀ pairs : List (String × Int), pairs ≠ [] →
      processKeywords toLowerCase
          ⟨some (pairs.map Prod.fst),
            some (pairs.map (fun r => JsonValue.number (roundDouble ((r.2 : Int) : ℚ))))⟩ =
        csvResponse toLowerCase (pairs.map Prod.fst)
          (pairs.map (fun r => roundDouble ((r.2 : Int) : ℚ)))) ∧
    (∀ pairs : List (String × JSNumber), pairs ≠ [] → (∀ r ∈ pairs, r.2 ≠ .nan) →
      processKeywords toLowerCase
          ⟨some (pairs.map Prod.fst), some (pairs.map (fun r => JsonValue.number r.2))⟩ =
        csvResponse toLowerCase (pairs.map Prod.fst) (pairs.map Prod.snd)) ∧
    (∀ content : String,
      processCsv toLowerCase (some content) =
        csvResponse toLowerCase (csvColumns content).1 (csvColumns content).2) ∧
    (∀ content : String, (csvColumns content).1 ≠ [] →
      processKeywords toLowerCase
          ⟨some (csvColumns content).1, some ((csvColumns content).2.map JsonValue.number)⟩ =
        processCsv toLowerCase (some content)) := by
  have key : ∀ (ks : List String) (vs : List JSNumber), ks ≠ [] → vs.length = ks.length →
      (∀ v ∈ vs, v ≠ .nan) →
      processKeywords toLowerCase ⟨some ks, some (vs.map JsonValue.number)⟩ =
        csvResponse toLowerCase ks vs := by
    intro ks vs hne hlen hnan
    have hlen0 : ks.length ≠ 0 := fun h => hne (List.length_eq_zero.mp h)
    simp only [processKeywords, csvResponse, Option.getD_some, hlen0, if_false,
      parsedVolumes_eq_self ks vs hnan hlen]
    rfl
  refine ⟨?_, ?_, fun content => rfl, ?_⟩
  · intro pairs hne
    have h := key (pairs.map Prod.fst) (pairs.map (fun r => roundDouble ((r.2 : Int) : ℚ)))
      (fun h => hne (List.map_eq_nil_iff.mp h)) (by simp)
      (by
        intro v hv
        obtain ⟨r, _, rfl⟩ := List.mem_map.mp hv
        exact roundDouble_ne_nan _)
    rw [List.map_map] at h
    exact h
  · intro pairs hne hnan
    have h := key (pairs.map Prod.fst) (pairs.map Prod.snd)
      (fun h => hne (List.map_eq_nil_iff.mp h)) (by simp)
      (by
        intro v hv
        obtain ⟨r, hr, rfl⟩ := List.mem_map.mp hv
        exact hnan r hr)
    rw [List.map_map] at h
    exact h
  · intro content hne
    rw [processCsv_eq_csvResponse]
    exact key _ _ hne (csvColumns_length content) (csvColumns_ne_nan content)

/-- Claim C17 at the two records of the specification's CSV example. -/
theorem processKeywords_eq_csvResponse_witness :
    processKeywords jsToLowerCase
        ⟨some ["buy shoes", "best running shoes"],
          some [.number (.finite 500), .number (.finite 300)]⟩ =
      csvResponse jsToLowerCase ["buy shoes", "best running shoes"]
        [.finite 500, .finite 300] ∧
    processKeywords jsToLowerCase
        ⟨some ["buy shoes", "best running shoes"],
          some [.number (.finite 500), .number (.finite 300)]⟩ =
      processCsv jsToLowerCase
        (some "keyword,volume\nbuy shoes,500\n123,999\nbest running shoes,300") := by
  constructor
  · have h := (processKeywords_eq_csvResponse jsToLowerCase).1
      [("buy shoes", 500), ("best running shoes", 300)] (List.cons_ne_nil _ _)
    have h500 : roundDouble (((500 : Int) : ℚ)) = .finite 500 := by decide!
    have h300 : roundDouble (((300 : Int) : ℚ)) = .finite 300 := by decide!
    simp only [List.map_cons, List.map_nil, h500, h300] at h
    exact h
  · have h := (processKeywords_eq_csvResponse jsToLowerCase).2.2.2
      "keyword,volume\nbuy shoes,500\n123,999\nbest running shoes,300" (by decide!)
    have hc : csvColumns "keyword,volume\nbuy shoes,500\n123,999\nbest running shoes,300" =
        (["buy shoes", "best running shoes"], [.finite 500, .finite 300]) := by decide!
    rw [hc] at h
    exact h

/-! ## The coerced volumes -/

theorem parseIntChars_nonneg (s : List Char) (h : (trimStartChars s).head? ≠ some '-') :
    parseIntChars s = none ∨ ∃ n : Nat, parseIntChars s = some (n : Int) := by
  have hneg : (match trimStartChars s with
      | [] => false
      | c :: _ => decide (c = '-')) = false := by
    cases hs : trimStartChars s with
    | nil => rfl
    | cons c cs =>
      rw [hs] at h
      simp only [List.head?_cons, ne_eq, Option.some.injEq] at h
      simp [h]
  unfold parseIntChars
  simp only [hneg]
  split_ifs
  all_goals first
    | (left; rfl)
    | (right; exact ⟨_, rfl⟩)
    | contradiction

/-- The volume read by the CSV loop is never NaN; it is an integer or an infinity. -/
theorem parseIntOrZero_int (field : Option (List Char)) :
    (∃ i : Int, parseIntOrZero field = .finite (i : ℚ)) ∨
      ∃ negative : Bool, parseIntOrZero field = .infinity negative := by
  cases field with
  | none => exact Or.inl ⟨0, by simp [parseIntOrZero]⟩
  | some s =>
    cases hp : parseIntChars s with
    | none => exact Or.inl ⟨0, by simp [parseIntOrZero, parseInt, hp, orZero]⟩
    | some i =>
      have hv : parseIntOrZero (some s) = orZero (roundDouble (i : ℚ)) := by
        simp [parseIntOrZero, parseInt, hp]
      rw [hv]
      rcases roundDouble_int i with ⟨m, hm⟩ | hinf
      · left
        rw [hm]
        by_cases hi : i < 0
        · exact ⟨-(m : Int), by simp [hi, orZero]⟩
        · exact ⟨(m : Int), by simp [hi, orZero]⟩
      · right
        rw [hinf]
        exact ⟨_, rfl⟩

/-- Without a leading minus sign the volume read by the CSV loop is not negative. -/
theorem parseIntOrZero_nonneg (s : List Char) (h : (trimStartChars s).head? ≠ some '-') :
    (∃ m : Nat, parseIntOrZero (some s) = .finite (m : ℚ)) ∨
      parseIntOrZero (some s) = .infinity false := by
  rcases parseIntChars_nonneg s h with hp | ⟨n, hp⟩
  · exact Or.inl ⟨0, by simp [parseIntOrZero, parseInt, hp, orZero]⟩
  · have hv : parseIntOrZero (some s) = orZero (roundDouble ((n : Int) : ℚ)) := by
      simp [parseIntOrZero, parseInt, hp]
    rw [hv]
    have hn : ¬ ((n : Int) < 0) := by omega
    rcases roundDouble_int (n : Int) with ⟨m, hm⟩ | hinf
    · left
      rw [hm]
      exact ⟨m, by simp [orZero]⟩
    · right
      rw [hinf]
      simp [orZero]

/-- The records of the CSV handler: one per kept line of the uploaded text. -/
theorem processCsv_allKeywords (toLowerCase : String → String) (content : String) :
    ∃ p, processCsv toLowerCase (some content) = .success p ∧
      p.allKeywords =
        (csvRecordsSpec content).map
          (fun r => ({ keyword := r.1, volume := r.2,
                       intent := detectIntent toLowerCase r.1 } : KeywordObject)) := by
  refine ⟨_, processCsv_eq toLowerCase content, ?_⟩
  simp only
  rw [csvKeywordObjects_eq_zipWith toLowerCase _ _ (csvColumns_length content),
    csvColumns_eq_spec]
  exact zipWith_map_fst_snd _ _

/-- Claim C10 fails: the CSV line "buy shoes,-3" gives a record of volume -3 and a
total of -3; in the structured path the supplied volumes -5 and 1.5 are kept as they
are, a negative number and a fraction, and the total is -3.5. -/
theorem volume_negative_counterexample :
    processCsv jsToLowerCase (some "buy shoes,-3") = .success
      { keywordsByIntent :=
          { Informational := []
            Transactional := [⟨"buy shoes", .finite (-3), "Transactional"⟩]
            Commercial := []
            Navigational := [] }
        stats :=
          { totalKeywords := 1, totalClusters := 1, totalVolume := .finite (-3),
            intentDistribution :=
              { Informational := 0, Transactional := 1, Commercial := 0, Navigational := 0 } }
        allKeywords := [⟨"buy shoes", .finite (-3), "Transactional"⟩] } ∧
    processKeywords jsToLowerCase
        ⟨some ["buy shoes", "nike guide"],
          some [.number (.finite (-5)), .number (.finite (3 / 2))]⟩ = .success
      { keywordsByIntent :=
          { Informational := [⟨"nike guide", .finite (3 / 2), "Informational"⟩]
            Transactional := [⟨"buy shoes", .finite (-5), "Transactional"⟩]
            Commercial := []
            Navigational := [] }
        stats :=
          { totalKeywords := 2, totalClusters := 2, totalVolume := .finite (-7 / 2),
            intentDistribution :=
              { Informational := 1, Transactional := 1, Commercial := 0, Navigational := 0 } }
        allKeywords :=
          [⟨"buy shoes", .finite (-5), "Transactional"⟩,
            ⟨"nike guide", .finite (3 / 2), "Informational"⟩] } := by
  constructor
  · decide!
  · decide!

/-- Claim C10, amended.  Structured path: on a non-empty keyword list with a `volumes`
array of the same length, record `i` carries `Number(v) || 0` of element `v` at position
`i`, which is never `NaN`: a number other than `NaN` is kept as it is (sign and fraction
included), `NaN`, `null` and a text that is not a numeric literal give 0; with a
`volumes` array of another length, or none, every record has the volume 0.  CSV path:
every record comes from a line of the uploaded text and its volume is
`parseInt(field) || 0` of the trimmed second field of that line; that value is an
integer (or an infinity, never `NaN`), it is 0 when the field is missing or `parseInt`
reads no digit, and it is not negative unless the field starts, after white space, with
a minus sign. -/
theorem volume_coercion (toLowerCase : String → String) :
    (∀ (body : RequestBody) (keywords : List String),
      body.keywords = some keywords → keywords ≠ [] →
      ∃ p, processKeywords toLowerCase body = .success p ∧
        p.allKeywords.length = keywords.length ∧
        (∀ volumes : List JsonValue, body.volumes = some volumes →
          volumes.length = keywords.length →
          ∀ (i : Nat) (o : KeywordObject) (v : JsonValue),
            p.allKeywords[i]? = some o → volumes[i]? = some v →
              o.volume = orZero (toNumber v) ∧
              o.volume ≠ .nan ∧
              (∀ x : JSNumber, v = .number x → x ≠ .nan → o.volume = x) ∧
              (v = .null ∨ v = .number .nan → o.volume = .finite 0) ∧
              (∀ s : String, v = .string s → (trimChars s.data).isEmpty = false →
                isStrNumericLiteral (trimChars s.data) = false → o.volume = .finite 0)) ∧
        ((body.volumes.getD []).length ≠ keywords.length →
          ∀ o ∈ p.allKeywords, o.volume = .finite 0)) ∧
    (∀ content : String,
      ∃ p, processCsv toLowerCase (some content) = .success p ∧
        ∀ o ∈ p.allKeywords,
          o.volume ≠ .nan ∧
          ((∃ i : Int, o.volume = .finite (i : ℚ)) ∨
            ∃ negative : Bool, o.volume = .infinity negative) ∧
          ∃ line ∈ csvLines content,
            o.keyword = String.mk (firstField line) ∧
            o.volume = parseIntOrZero (secondField line) ∧
            (secondField line = none → o.volume = .finite 0) ∧
            (∀ s : List Char, secondField line = some s → parseIntChars s = none →
              o.volume = .finite 0) ∧
            (∀ s : List Char, secondField line = some s →
              (trimStartChars s).head? ≠ some '-' →
              (∃ m : Nat, o.volume = .finite (m : ℚ)) ∨ o.volume = .infinity false)) := by
  constructor
  · intro body keywords hk hne
    have hobjs := keywordObjects_eq_zipWith toLowerCase keywords
      (parsedVolumes keywords (body.volumes.getD [])) (parsedVolumes_length _ _)
    have hvol := zipWith_map_volume toLowerCase keywords
      (parsedVolumes keywords (body.volumes.getD [])) (parsedVolumes_length _ _)
    have hmap : (keywordObjects toLowerCase keywords
          (parsedVolumes keywords (body.volumes.getD []))).map (fun o => o.volume) =
        parsedVolumes keywords (body.volumes.getD []) := by
      rw [hobjs, hvol]
    refine ⟨_, processKeywords_eq toLowerCase body keywords hk hne, ?_, ?_, ?_⟩
    · have hlen := congrArg List.length hmap
      rw [List.length_map, parsedVolumes_length] at hlen
      exact hlen
    · intro volumes hv hlen i o v ho hvi
      have hpv : parsedVolumes keywords (body.volumes.getD []) =
          volumes.map (fun v => orZero (toNumber v)) := by
        simp only [hv, Option.getD_some, parsedVolumes, hlen, if_true]
        rfl
      have hi : ((keywordObjects toLowerCase keywords
          (parsedVolumes keywords (body.volumes.getD []))).map (fun o => o.volume))[i]? =
          (volumes.map (fun v => orZero (toNumber v)))[i]? := by
        rw [hmap, hpv]
      simp only [] at ho
      rw [List.getElem?_map, List.getElem?_map, ho, hvi] at hi
      have hov : o.volume = orZero (toNumber v) := by
        simpa using hi
      refine ⟨hov, ?_, ?_, ?_, ?_⟩
      · rw [hov]
        exact orZero_ne_nan _
      · intro x hx hnan
        rw [hov, hx]
        exact orZero_of_ne_nan x hnan
      · intro h
        rcases h with h | h <;> rw [hov, h] <;> rfl
      · intro s hs hempty hlit
        rw [hov, hs]
        simp [toNumber, stringToNumber, hempty, hlit, orZero]
    · intro hlen o ho
      have hpv : parsedVolumes keywords (body.volumes.getD []) =
          List.replicate keywords.length (.finite 0) := by
        simp [parsedVolumes, hlen]
      have hmem : o.volume ∈ List.replicate keywords.length (JSNumber.finite 0) := by
        rw [← hpv, ← hmap]
        exact List.mem_map_of_mem (fun o => o.volume) ho
      exact (List.mem_replicate.mp hmem).2
  · intro content
    obtain ⟨p, hp, ha⟩ := processCsv_allKeywords toLowerCase content
    refine ⟨p, hp, ?_⟩
    intro o ho
    rw [ha] at ho
    obtain ⟨r, hr, hor⟩ := List.mem_map.mp ho
    obtain ⟨il, hil, hilr⟩ := List.mem_map.mp hr
    have hline : il.2 ∈ csvLines content := by
      have h1 : il ∈ (csvLines content).enum := (List.mem_filter.mp hil).1
      have h2 : (il.1, il.2) ∈ (csvLines content).enumFrom 0 := h1
      obtain ⟨_, _, h3⟩ := List.mem_enumFrom h2
      rw [h3]
      exact List.getElem_mem _
    have hvolume : o.volume = parseIntOrZero (secondField il.2) := by
      rw [← hor, ← hilr]
    have hkeyword : o.keyword = String.mk (firstField il.2) := by
      rw [← hor, ← hilr]
    refine ⟨?_, ?_, il.2, hline, hkeyword, hvolume, ?_, ?_, ?_⟩
    · rw [hvolume]
      exact parseIntOrZero_ne_nan _
    · rw [hvolume]
      exact parseIntOrZero_int _
    · intro hnone
      rw [hvolume, hnone]
      rfl
    · intro s hs hnone
      rw [hvolume, hs]
      simp [parseIntOrZero, parseInt, hnone, orZero]
    · intro s hs hhead
      rw [hvolume, hs]
      exact parseIntOrZero_nonneg s hhead

/-- The amended claim C10 on concrete inputs: the supplied values -5, 1.5, "12.7",
"12abc" and `null` give the volumes -5, 1.5, the double nearest to 12.7, 0 and 0; the
CSV fields "-3", "12.7", "abc", a missing field and "9007199254740993" give the volumes
-3, 12, 0, 0 and 9007199254740992, none of them `NaN`. -/
theorem volume_coercion_witness :
    (∃ p, processKeywords jsToLowerCase
        ⟨some ["buy shoes", "best running shoes", "nike guide", "nike site", "nike login"],
          some [.number (.finite (-5)), .number (.finite (3 / 2)), .string "12.7",
            .string "12abc", .null]⟩ = .success p ∧
      p.allKeywords.map (fun o => o.volume) =
        [.finite (-5), .finite (3 / 2), .finite (3574732204225331 / 281474976710656),
          .finite 0, .finite 0] ∧
      ∀ o : KeywordObject, p.allKeywords[3]? = some o → o.volume = .finite 0) ∧
    (∃ p, processCsv jsToLowerCase
        (some "buy shoes,-3\nbest shoes,12.7\nnike guide,abc\nnike site\nnike app,9007199254740993")
          = .success p ∧
      p.allKeywords.map (fun o => o.volume) =
        [.finite (-3), .finite 12, .finite 0, .finite 0, .finite 9007199254740992] ∧
      ∀ o ∈ p.allKeywords, o.volume ≠ .nan) := by
  constructor
  · obtain ⟨p, hp, _, hvol, _⟩ := (volume_coercion jsToLowerCase).1
      ⟨some ["buy shoes", "best running shoes", "nike guide", "nike site", "nike login"],
        some [.number (.finite (-5)), .number (.finite (3 / 2)), .string "12.7",
          .string "12abc", .null]⟩ _ rfl (List.cons_ne_nil _ _)
    obtain ⟨q, hq⟩ : ∃ q, processKeywords jsToLowerCase
        ⟨some ["buy shoes", "best running shoes", "nike guide", "nike site", "nike login"],
          some [.number (.finite (-5)), .number (.finite (3 / 2)), .string "12.7",
            .string "12abc", .null]⟩ = .success q ∧
        q.allKeywords.map (fun o => o.volume) =
          [.finite (-5), .finite (3 / 2), .finite (3574732204225331 / 281474976710656),
            .finite 0, .finite 0] :=
      ⟨_, processKeywords_eq jsToLowerCase _ _ rfl (List.cons_ne_nil _ _), by decide!⟩
    have hpq : p = q := by
      have h := hp.symm.trans hq.1
      injection h
    refine ⟨p, hp, hpq ▸ hq.2, ?_⟩
    intro o ho
    exact (hvol _ rfl rfl 3 o (.string "12abc") ho rfl).2.2.2.2 "12abc" rfl
      (by decide) (by decide)
  · obtain ⟨p, hp, hall⟩ := (volume_coercion jsToLowerCase).2
      "buy shoes,-3\nbest shoes,12.7\nnike guide,abc\nnike site\nnike app,9007199254740993"
    obtain ⟨q, hq, ha⟩ := processCsv_allKeywords jsToLowerCase
      "buy shoes,-3\nbest shoes,12.7\nnike guide,abc\nnike site\nnike app,9007199254740993"
    have hpq : p = q := by
      have h := hp.symm.trans hq
      injection h
    refine ⟨p, hp, ?_, fun o ho => (hall o ho).1⟩
    rw [hpq, ha]
    decide!

/-! ## Trimming in the structured path -/

theorem head_dropWhile_false (p : Char → Bool) (s : List Char) (c : Char)
    (h : (s.dropWhile p).head? = some c) : p c = false := by
  induction s with
  | nil => simp at h
  | cons a s ih =>
    by_cases ha : p a = true
    · rw [List.dropWhile_cons_of_pos ha] at h
      exact ih h
    · rw [List.dropWhile_cons_of_neg ha] at h
      simp only [List.head?_cons, Option.some.injEq] at h
      rw [← h]
      simpa using ha

theorem getLast_dropWhile (p : Char → Bool) (s : List Char) (h : s.dropWhile p ≠ []) :
    (s.dropWhile p).getLast? = s.getLast? := by
  obtain ⟨pre, hpre⟩ := List.dropWhile_suffix p (l := s)
  conv_rhs => rw [← hpre]
  rw [List.getLast?_append_of_ne_nil _ h]

/-- The first character of a trimmed string is not white space. -/
theorem trimChars_head (s : List Char) (c : Char) (h : (trimChars s).head? = some c) :
    isWhiteSpace c = false := by
  unfold trimChars trimEndChars trimStartChars at h
  rw [List.head?_reverse] at h
  have hne : (List.dropWhile isWhiteSpace (List.dropWhile isWhiteSpace s).reverse) ≠ [] := by
    intro h0
    rw [h0] at h
    simp at h
  rw [getLast_dropWhile _ _ hne, List.getLast?_reverse] at h
  exact head_dropWhile_false _ _ _ h

/-- The last character of a trimmed string is not white space. -/
theorem trimChars_getLast (s : List Char) (c : Char) (h : (trimChars s).getLast? = some c) :
    isWhiteSpace c = false := by
  unfold trimChars trimEndChars at h
  rw [List.getLast?_reverse] at h
  exact head_dropWhile_false _ _ _ h

/-- One step of the front end loop keeps the trimmed first field of the line when it is
not empty. -/
theorem analyzeRow_fst (acc : List String × List JSNumber) (line : List Char) :
    (analyzeRow acc line).1 =
      if (firstField line).isEmpty = true then acc.1
      else acc.1 ++ [String.mk (firstField line)] := by
  unfold analyzeRow firstField
  cases hs : splitChars ',' line with
  | nil =>
    have ht : trimChars [] = [] := rfl
    simp [ht]
  | cons piece pieces =>
    by_cases he : (trimChars piece).isEmpty = true <;> simp [he]

theorem analyzeRow_length (acc : List String × List JSNumber) (line : List Char)
    (h : acc.2.length = acc.1.length) :
    (analyzeRow acc line).2.length = (analyzeRow acc line).1.length := by
  unfold analyzeRow
  cases hs : List.map trimChars (splitChars ',' line) with
  | nil => exact h
  | cons first others =>
    by_cases he : first.isEmpty = true <;> simp [he, h]

theorem foldl_analyzeRow_fst (lines : List (List Char)) (acc : List String × List JSNumber) :
    (lines.foldl analyzeRow acc).1 =
      acc.1 ++ ((lines.map firstField).filter (fun f => !f.isEmpty)).map String.mk := by
  induction lines generalizing acc with
  | nil => simp
  | cons line lines ih =>
    rw [List.foldl_cons, ih, analyzeRow_fst]
    by_cases he : (firstField line).isEmpty = true <;> simp [he, List.filter_cons]

theorem foldl_analyzeRow_length (lines : List (List Char)) (acc : List String × List JSNumber)
    (h : acc.2.length = acc.1.length) :
    (lines.foldl analyzeRow acc).2.length = (lines.foldl analyzeRow acc).1.length := by
  induction lines generalizing acc with
  | nil => exact h
  | cons line lines ih =>
    rw [List.foldl_cons]
    exact ih _ (analyzeRow_length acc line h)

/-- Claim C14 fails on the handler: `/api/process-keywords` keeps the keywords it is
given.  The list `["  buy shoes ", " ", ""]` gives three records whose keywords are the
untrimmed, the blank and the empty string, and `totalKeywords` is 3. -/
theorem processKeywords_keeps_untrimmed :
    processKeywords jsToLowerCase ⟨some ["  buy shoes ", " ", ""], none⟩ = .success
      { keywordsByIntent :=
          { Informational := [⟨" ", .finite 0, "Informational"⟩, ⟨"", .finite 0, "Informational"⟩]
            Transactional := [⟨"  buy shoes ", .finite 0, "Transactional"⟩]
            Commercial := []
            Navigational := [] }
        stats :=
          { totalKeywords := 3, totalClusters := 3, totalVolume := .finite 0,
            intentDistribution :=
              { Informational := 2, Transactional := 1, Commercial := 0, Navigational := 0 } }
        allKeywords :=
          [⟨"  buy shoes ", .finite 0, "Transactional"⟩, ⟨" ", .finite 0, "Informational"⟩,
            ⟨"", .finite 0, "Informational"⟩] } := by
  decide!

/-- Claim C14, amended: the trimming is done by the front end.  For every text of the
input box for which `analyzeKeywords` sends a request, the keywords sent are the
non-empty trimmed first fields of the non-blank lines, in order, with as many volumes;
each of them is non-empty and neither starts nor ends with white space.  When none
survives the handler answers "No keywords provided"; otherwise it answers with one
record per surviving keyword, in order, and `totalKeywords` is their number. -/
theorem analyzeKeywords_trimmed (toLowerCase : String → String) (value : String)
    (body : RequestBody) (h : analyzeKeywords value = some body) :
    ∃ (keywords : List String) (volumes : List JsonValue),
      body = ⟨some keywords, some volumes⟩ ∧
      volumes.length = keywords.length ∧
      keywords =
        (((((splitChars '\n' (trimChars value.data)).filter
          (fun line => !(trimChars line).isEmpty)).map firstField).filter
          (fun f => !f.isEmpty)).map String.mk) ∧
      (∀ k ∈ keywords, k.data ≠ [] ∧
        (∀ c, k.data.head? = some c → isWhiteSpace c = false) ∧
        (∀ c, k.data.getLast? = some c → isWhiteSpace c = false)) ∧
      (keywords = [] →
        processKeywords toLowerCase body = .failure 400 "No keywords provided") ∧
      (keywords ≠ [] →
        ∃ p, processKeywords toLowerCase body = .success p ∧
          p.allKeywords.map (fun o => o.keyword) = keywords ∧
          p.stats.totalKeywords = keywords.length) := by
  unfold analyzeKeywords at h
  simp only at h
  split_ifs at h with hempty
  simp only [Option.some.injEq] at h
  subst h
  refine ⟨_, _, rfl,
    (List.length_map _ _).trans (foldl_analyzeRow_length _ _ rfl), ?_, ?_, ?_, ?_⟩
  · rw [foldl_analyzeRow_fst]
    simp
  · intro k hk
    rw [foldl_analyzeRow_fst] at hk
    simp only [List.nil_append, List.mem_map, List.mem_filter, Bool.not_eq_true'] at hk
    obtain ⟨f, ⟨⟨line, _, hf⟩, hne⟩, rfl⟩ := hk
    subst hf
    refine ⟨?_, ?_, ?_⟩
    · intro h0
      simp only at h0
      rw [h0] at hne
      simp at hne
    · intro c hc
      exact trimChars_head _ c hc
    · intro c hc
      exact trimChars_getLast _ c hc
  · intro h0
    simp [processKeywords, h0]
  · intro hne
    have hobjs := keywordObjects_eq_zipWith toLowerCase
      (List.foldl analyzeRow ([], [])
        ((splitChars '\n' (trimChars value.data)).filter
          (fun line => !(trimChars line).isEmpty))).1
      (parsedVolumes _ ((some ((List.foldl analyzeRow ([], [])
        ((splitChars '\n' (trimChars value.data)).filter
          (fun line => !(trimChars line).isEmpty))).2.map numberToJson)).getD []))
      (parsedVolumes_length _ _)
    refine ⟨_, processKeywords_eq toLowerCase _ _ rfl hne, ?_, rfl⟩
    simp only
    rw [hobjs]
    exact zipWith_map_keyword toLowerCase _ _ (parsedVolumes_length _ _)

/-- The amended claim C14 at a text of four lines: two keywords survive, trimmed. -/
theorem analyzeKeywords_trimmed_witness :
    analyzeKeywords "  buy shoes , 5\n\n , 7\nbest\n" =
        some ⟨some ["buy shoes", "best"], some [.number (.finite 5), .number (.finite 0)]⟩ ∧
      ∃ p, processKeywords jsToLowerCase ⟨some ["buy shoes", "best"], some [.number (.finite 5), .number (.finite 0)]⟩ =
          .success p ∧
        p.allKeywords.map (fun o => o.keyword) = ["buy shoes", "best"] ∧
        p.stats.totalKeywords = 2 := by
  have hreq : analyzeKeywords "  buy shoes , 5\n\n , 7\nbest\n" =
      some ⟨some ["buy shoes", "best"], some [.number (.finite 5), .number (.finite 0)]⟩ := by
    decide!
  refine ⟨hreq, ?_⟩
  obtain ⟨keywords, volumes, hb, _, _, _, _, hs⟩ :=
    analyzeKeywords_trimmed jsToLowerCase "  buy shoes , 5\n\n , 7\nbest\n" _ hreq
  simp only [RequestBody.mk.injEq, Option.some.injEq] at hb
  obtain ⟨hk, _⟩ := hb
  subst hk
  exact hs (List.cons_ne_nil _ _)

/-! ## The clusterer -/

theorem pushCluster_new (clusters : List (Nat × List String)) (m : Nat) (kw : String)
    (h : ∀ e ∈ clusters, e.1 < m) :
    pushCluster clusters m kw = clusters ++ [(m, [kw])] := by
  induction clusters with
  | nil => rfl
  | cons e clusters ih =>
    obtain ⟨id, kws⟩ := e
    have hid : id < m := h (id, kws) (List.mem_cons_self _ _)
    have h1 : ¬ id = m := by omega
    have h2 : ¬ m < id := by omega
    simp only [pushCluster, h1, h2, if_false, List.cons_append]
    rw [ih (fun x hx => h x (List.mem_cons_of_mem _ hx))]

theorem pushCluster_last (clusters : List (Nat × List String)) (m : Nat)
    (kws : List String) (kw : String) (h : ∀ e ∈ clusters, e.1 < m) :
    pushCluster (clusters ++ [(m, kws)]) m kw = clusters ++ [(m, kws ++ [kw])] := by
  induction clusters with
  | nil => simp [pushCluster]
  | cons e clusters ih =>
    obtain ⟨id, ks⟩ := e
    have hid : id < m := h (id, ks) (List.mem_cons_self _ _)
    have h1 : ¬ id = m := by omega
    have h2 : ¬ m < id := by omega
    have ih1 := ih (fun x hx => h x (List.mem_cons_of_mem _ hx))
    simp only [List.cons_append, pushCluster, h1, h2, if_false]
    exact congrArg _ ih1

/-- The loop over the keywords appends the position pairs, numbered from `m`, to an object
whose keys are below `m`. -/
theorem buildClusters_eq (rest : List String) :
    ∀ (m : Nat) (clusters : List (Nat × List String)), (∀ e ∈ clusters, e.1 < m) →
      buildClusters rest (2 * m) clusters =
        clusters ++ (positionPairs rest).enumFrom m := by
  induction rest using positionPairs.induct with
  | case1 =>
    intro m clusters _
    simp [buildClusters, positionPairs]
  | case2 a =>
    intro m clusters h
    have hdiv : 2 * m / 2 = m := by omega
    simp only [buildClusters, positionPairs, hdiv, List.enumFrom_cons, List.enumFrom_nil]
    exact pushCluster_new clusters m a h
  | case3 a b rest ih =>
    intro m clusters h
    have hdiv : 2 * m / 2 = m := by omega
    have hdiv1 : (2 * m + 1) / 2 = m := by omega
    have hnext : 2 * m + 1 + 1 = 2 * (m + 1) := by omega
    simp only [buildClusters, positionPairs, hdiv, hdiv1, List.enumFrom_cons]
    rw [pushCluster_new clusters m a h, pushCluster_last clusters m [a] b h, hnext,
      ih (m + 1) (clusters ++ [(m, [a] ++ [b])])]
    · simp
    · intro e he
      rcases List.mem_append.mp he with he | he
      · exact Nat.lt_succ_of_lt (h e he)
      · simp only [List.mem_singleton] at he
        subst he
        exact Nat.lt_succ_self m

theorem positionPairs_length (l : List String) :
    (positionPairs l).length = (l.length + 1) / 2 := by
  induction l using positionPairs.induct with
  | case1 => rfl
  | case2 a => simp [positionPairs]
  | case3 a b rest ih =>
    simp only [positionPairs, List.length_cons, ih]
    omega

theorem positionPairs_getElem (l : List String) :
    ∀ (i : Nat) (kws : List String), (positionPairs l)[i]? = some kws →
      kws = (l.drop (2 * i)).take 2 ∧ kws ≠ [] := by
  induction l using positionPairs.induct with
  | case1 =>
    intro i kws h
    simp [positionPairs] at h
  | case2 a =>
    intro i kws h
    cases i with
    | zero =>
      simp only [positionPairs, List.getElem?_cons_zero, Option.some.injEq] at h
      subst h
      simp
    | succ i => simp [positionPairs] at h
  | case3 a b rest ih =>
    intro i kws h
    cases i with
    | zero =>
      simp only [positionPairs, List.getElem?_cons_zero, Option.some.injEq] at h
      subst h
      simp
    | succ i =>
      simp only [positionPairs, List.getElem?_cons_succ] at h
      have hd : 2 * (i + 1) = 2 * i + 1 + 1 := by omega
      rw [hd, List.drop_succ_cons, List.drop_succ_cons]
      exact ih i kws h

/-- On entries with non-empty keyword lists the callback never throws, and record `i`
carries the key, the keywords, the first keyword and the size of entry `i`. -/
theorem mapEntries_clusterEntry (mockSERPs : String → Option (List String))
    (toLowerCase : String → String) (keywords : List String) (vols : List JSNumber)
    (entries : List (Nat × List String)) (h : ∀ e ∈ entries, e.2 ≠ []) :
    ∃ cs, mapEntries (clusterEntry mockSERPs toLowerCase keywords vols) entries = .ok cs ∧
      cs.map (fun c => c.keywords) = entries.map Prod.snd ∧
      ∀ (i : Nat) (e : Nat × List String) (c : Cluster),
        entries[i]? = some e → cs[i]? = some c →
          c.cluster_id = e.1 ∧ c.keywords = e.2 ∧ e.2.head? = some c.primary_keyword ∧
            c.cluster_size = e.2.length := by
  induction entries with
  | nil => exact ⟨[], rfl, rfl, by simp⟩
  | cons e entries ih =>
    obtain ⟨cs, hcs, hmap, hidx⟩ := ih (fun x hx => h x (List.mem_cons_of_mem _ hx))
    obtain ⟨id, kws⟩ := e
    have hne : kws ≠ [] := h (id, kws) (List.mem_cons_self _ _)
    obtain ⟨primary, others, rfl⟩ := List.exists_cons_of_ne_nil hne
    let c0 : Cluster :=
      { cluster_id := id
        primary_keyword := primary
        keywords := primary :: others
        total_volume := clusterVolume keywords vols (primary :: others)
        intent := inferIntent toLowerCase primary
        cluster_size := (primary :: others).length
        shared_urls := (mockSERPs primary).getD [] }
    refine ⟨c0 :: cs, ?_, ?_, ?_⟩
    · simp only [mapEntries, clusterEntry, hcs]
    · simp only [List.map_cons, hmap]
    · intro i e c he hc
      cases i with
      | zero =>
        simp only [List.getElem?_cons_zero, Option.some.injEq] at he hc
        subst he
        subst hc
        simp
      | succ i =>
        simp only [List.getElem?_cons_succ] at he hc
        exact hidx i e c he hc

/-- Claim C16: for every keyword list `clusterKeywords` resolves to `ceil(n/2)` clusters,
cluster `i` having `cluster_id` `i`, the keywords at positions `2i` and `2i+1` (the second
one when it exists) in that order, the keyword at position `2i` as `primary_keyword`, and
a `cluster_size` of 1 or 2. -/
theorem clusterKeywords_pairs (mockSERPs : String → Option (List String))
    (toLowerCase : String → String) (keywords : List String)
    (volumes : Option (List JSNumber)) :
    ∃ cs, clusterKeywords mockSERPs toLowerCase keywords volumes = .ok cs ∧
      cs.length = (keywords.length + 1) / 2 ∧
      cs.map (fun c => c.keywords) = positionPairs keywords ∧
      ∀ (i : Nat) (c : Cluster), cs[i]? = some c →
        c.cluster_id = i ∧
        c.keywords = (keywords.drop (2 * i)).take 2 ∧
        keywords[2 * i]? = some c.primary_keyword ∧
        c.cluster_size = c.keywords.length ∧
        (c.cluster_size = 1 ∨ c.cluster_size = 2) := by
  have hbuild : buildClusters keywords 0 [] = (positionPairs keywords).enumFrom 0 := by
    have h := buildClusters_eq keywords 0 [] (by simp)
    simpa using h
  have hne : ∀ e ∈ (positionPairs keywords).enumFrom 0, e.2 ≠ [] := by
    intro e he
    obtain ⟨i, hi⟩ := List.getElem?_of_mem he
    rw [List.getElem?_enumFrom] at hi
    cases hp : (positionPairs keywords)[i]? with
    | none => simp [hp] at hi
    | some kws =>
      simp only [hp, Option.map_some', Option.some.injEq] at hi
      subst hi
      exact (positionPairs_getElem keywords i kws hp).2
  obtain ⟨cs, hcs, hmap, hidx⟩ := mapEntries_clusterEntry mockSERPs toLowerCase keywords
    (if (volumes.getD []).length ≠ 0 then volumes.getD []
      else List.replicate keywords.length (.finite 100))
    ((positionPairs keywords).enumFrom 0) hne
  refine ⟨cs, ?_, ?_, ?_, ?_⟩
  · simp only [clusterKeywords, hbuild]
    exact hcs
  · have hl := congrArg List.length hmap
    simp only [List.length_map, List.enumFrom_length] at hl
    rw [hl, positionPairs_length]
  · rw [hmap, List.enumFrom_map_snd]
  · intro i c hc
    have hlt : i < cs.length := by
      by_contra hge
      rw [List.getElem?_eq_none (by omega)] at hc
      simp at hc
    have hl := congrArg List.length hmap
    simp only [List.length_map, List.enumFrom_length] at hl
    have hp : ∃ kws, (positionPairs keywords)[i]? = some kws :=
      ⟨_, List.getElem?_eq_getElem (by omega)⟩
    obtain ⟨kws, hp⟩ := hp
    have he : ((positionPairs keywords).enumFrom 0)[i]? = some (0 + i, kws) := by
      rw [List.getElem?_enumFrom, hp]
      rfl
    obtain ⟨h1, h2, h3, h4⟩ := hidx i _ c he hc
    obtain ⟨hk, hkne⟩ := positionPairs_getElem keywords i kws hp
    simp only at h1 h2 h3 h4
    refine ⟨by omega, h2.trans hk, ?_, by rw [h4, h2], ?_⟩
    · rw [← h3, hk, List.head?_take]
      simp
    · rw [h4]
      have hlen : kws.length ≤ 2 := by
        rw [hk, List.length_take]
        exact Nat.min_le_left _ _
      have hpos : 0 < kws.length := List.length_pos.mpr hkne
      omega

/-- Claim C16 at five keywords: three clusters, the pairs of positions (0, 1) and (2, 3)
and the keyword of position 4 alone. -/
theorem clusterKeywords_pairs_witness :
    ∃ cs, clusterKeywords (fun _ => none) jsToLowerCase
        ["nike shoes", "buy shoes", "how to run", "best shoes", "shoe guide"] none = .ok cs ∧
      cs.length = 3 ∧
      cs.map (fun c => c.keywords) =
        [["nike shoes", "buy shoes"], ["how to run", "best shoes"], ["shoe guide"]] ∧
      ∀ c, cs[2]? = some c →
        c.cluster_id = 2 ∧ c.keywords = ["shoe guide"] ∧ c.cluster_size = 1 := by
  obtain ⟨cs, hcs, hlen, hmap, hidx⟩ := clusterKeywords_pairs (fun _ => none) jsToLowerCase
    ["nike shoes", "buy shoes", "how to run", "best shoes", "shoe guide"] none
  refine ⟨cs, hcs, hlen, hmap, ?_⟩
  intro c hc
  obtain ⟨h1, h2, _, h4, _⟩ := hidx 2 c hc
  refine ⟨h1, h2, ?_⟩
  rw [h4, h2]
  rfl

end KeywordTool
